import Mathlib

/-!
Verification development for the tfortools template-helper library.

The file shallowly embeds the library's data model and operations:

* `Config`, `AddCustomFn`, the `Opt*` registration functions, `NewConfig` and
  the help-text generators are translated from `tfortools.go`.
* The collection operations (`sortSlice`, `head`, `rows`, `toTable` and the
  logical grid produced by `table`) live in a source file that is not part of
  this tree; they are modelled from the specification, as marked on each
  definition.
* Go's `sort.Sort` (used by `NewConfig` on the help entries) is modelled as an
  insertion sort.  For help lists with pairwise distinct priority indices any
  correct sort produces the same result; for the short lists arising in the
  concrete counterexamples Go's `sort.Sort` is literally an insertion sort
  (it insertion-sorts ranges of fewer than 12 elements) and is stable there.

Machine strings are `String` (a list of characters in this toolchain); Go's
byte-wise string order is modelled as code-point lexicographic order, which
agrees with byte order for UTF-8.
-/

set_option maxHeartbeats 1600000

namespace Tfortools

/-- Lexicographic order on character lists, modelling Go's `<` on strings. -/
def charsLt : List Char → List Char → Bool
  | [], [] => false
  | [], _ :: _ => true
  | _ :: _, [] => false
  | a :: as, b :: bs => decide (a.toNat < b.toNat) || (a == b && charsLt as bs)

/-- Insert `x` into `l` in front of the first element that is not below `x`;
    the inner step of insertion sort.  Placing `x` after every strictly
    smaller element and before the first element `y` with `lt y x = false`
    makes the sort stable. -/
def insElem (lt : α → α → Bool) (x : α) : List α → List α
  | [] => [x]
  | y :: ys => if lt y x then y :: insElem lt x ys else x :: y :: ys

/-- Stable insertion sort; models Go's `sort.Sort` (see the file comment). -/
def insSort (lt : α → α → Bool) : List α → List α
  | [] => []
  | x :: xs => insElem lt x (insSort lt xs)

/-- Character for the decimal digit `d`. -/
def digitChar (d : ℕ) : Char := Char.ofNat (48 + d)

/-- Numeric value of a decimal digit character. -/
def digitVal (c : Char) : ℕ := c.toNat - 48

/-- Recogniser for ASCII decimal digit characters. -/
def isDigitChar (c : Char) : Bool := decide (48 ≤ c.toNat) && decide (c.toNat ≤ 57)

/-- Value of a big-endian list of decimal digits. -/
def digitsVal (l : List ℕ) : ℕ := l.foldl (fun a d => 10 * a + d) 0

/-- Big-endian decimal digits of `n`, with explicit fuel so that the
    definition is structurally recursive and reduces inside the kernel. -/
def natDigitsAux : ℕ → ℕ → List ℕ
  | 0, _ => []
  | fuel + 1, n => if n = 0 then [] else natDigitsAux fuel (n / 10) ++ [n % 10]

/-- Big-endian decimal digits of `n` (`[0]` for zero). -/
def natDigits (n : ℕ) : List ℕ := if n = 0 then [0] else natDigitsAux n n

/-- Canonical decimal rendering of a natural number, as characters. -/
def natChars (n : ℕ) : List Char := (natDigits n).map digitChar

/-- Canonical decimal rendering of an integer, as characters. -/
def intChars (i : ℤ) : List Char :=
  if i < 0 then '-' :: natChars i.natAbs else natChars i.natAbs

/-- Parse an unsigned decimal numeral; `none` unless the input is a non-empty
    string of digit characters. -/
def parseNatChars (l : List Char) : Option ℕ :=
  if !l.isEmpty && l.all isDigitChar then some (digitsVal (l.map digitVal)) else none

/-- Parse a decimal integer with an optional leading minus sign. -/
def parseIntChars (l : List Char) : Option ℤ :=
  if l.head? = some '-' then (parseNatChars l.tail).map (fun n => -(Int.ofNat n))
  else (parseNatChars l).map Int.ofNat

/-- Modelled from the spec: boolean parsing for `totable` column inference
    (the implementation file carrying `toTable` is absent from the tree);
    only the canonical renderings `true` and `false` are recognised. -/
def parseBool (s : String) : Option Bool :=
  if s = "true" then some true else if s = "false" then some false else none

/-- Decimal floating-point literal: sign, integer part, fractional digits.
    This is the value form `totable` infers for floating-point columns; the
    claims only ever exercise floats through their decimal literals. -/
structure FloatLit where
  neg : Bool
  ip : ℕ
  frac : List ℕ
deriving DecidableEq

/-- Canonical rendering of a floating-point literal, e.g. `-12.50`. -/
def floatChars (f : FloatLit) : List Char :=
  (if f.neg then ['-'] else []) ++ natChars f.ip ++ '.' :: f.frac.map digitChar

/-- Unsigned part of float parsing: a non-empty run of digits, a dot and a
    non-empty run of digits. -/
def parseFloatCore (neg : Bool) (l1 : List Char) : Option FloatLit :=
  if (l1.takeWhile isDigitChar).isEmpty then none
  else if (l1.dropWhile isDigitChar).head? = some '.' then
    if !((l1.dropWhile isDigitChar).tail).isEmpty &&
        ((l1.dropWhile isDigitChar).tail).all isDigitChar then
      some ⟨neg, digitsVal ((l1.takeWhile isDigitChar).map digitVal),
        ((l1.dropWhile isDigitChar).tail).map digitVal⟩
    else none
  else none

/-- Modelled from the spec: floating-point parsing for `totable` columns —
    an optional sign, then a non-empty run of digits, a dot and a non-empty
    run of digits. -/
def parseFloatChars (l : List Char) : Option FloatLit :=
  if l.head? = some '-' then parseFloatCore true l.tail else parseFloatCore false l

/-- Rational value of a floating-point literal, used for numeric comparison. -/
def FloatLit.toRat (f : FloatLit) : ℚ :=
  let v : ℚ := (f.ip : ℚ) + (digitsVal f.frac : ℚ) / (10 : ℚ) ^ f.frac.length
  if f.neg then -v else v

/-- Primitive field kinds of the data model (records built from other kinds do
    not take part in the claims under study). -/
inductive Kind where
  | kBool
  | kInt
  | kFloat
  | kStr
deriving DecidableEq

/-- A field value: boolean, integer, floating point or string. -/
inductive Value where
  | vBool (b : Bool)
  | vInt (i : ℤ)
  | vFloat (f : FloatLit)
  | vStr (s : String)
deriving DecidableEq

/-- Kind of a value. -/
def Value.kindOf : Value → Kind
  | .vBool _ => .kBool
  | .vInt _ => .kInt
  | .vFloat _ => .kFloat
  | .vStr _ => .kStr

/-- Canonical string form of a value (the form used by table cells, filtering
    and the sort fallback). -/
def renderValue : Value → String
  | .vBool true => "true"
  | .vBool false => "false"
  | .vInt i => ⟨intChars i⟩
  | .vFloat f => ⟨floatChars f⟩
  | .vStr s => s

/-- Modelled from the spec: the comparator — numeric kinds compare
    numerically, strings lexicographically, anything else by its canonical
    string rendering. -/
def valueLT : Value → Value → Bool
  | .vInt a, .vInt b => decide (a < b)
  | .vFloat a, .vFloat b => decide (a.toRat < b.toRat)
  | .vStr a, .vStr b => charsLt a.data b.data
  | a, b => charsLt (renderValue a).data (renderValue b).data

/-- Well-formedness of a value: fractional digit lists of floats are
    non-empty lists of digits. -/
def valueWFb : Value → Bool
  | .vFloat f => !f.frac.isEmpty && f.frac.all (fun d => decide (d < 10))
  | _ => true

/-- A collection: a homogeneous table of records, kept as the field names,
    the per-column kinds and the record rows. -/
structure Collection where
  names : List String
  kinds : List Kind
  rows : List (List Value)
deriving DecidableEq

/-- A record matches the column kinds, pointwise and in length, with
    well-formed values. -/
def rowWF : List Kind → List Value → Bool
  | [], [] => true
  | k :: ks, v :: vs => (v.kindOf == k) && valueWFb v && rowWF ks vs
  | _, _ => false

/-- Collection invariant: as many kinds as names, and every row matches the
    kinds. -/
def Collection.WFb (c : Collection) : Bool :=
  (c.kinds.length == c.names.length) && c.rows.all (fun r => rowWF c.kinds r)

/-- String cells of a row that look like booleans, integers or floats would
    make `totable` infer a non-string kind; this recogniser demands that no
    string cell parses under any of the three. -/
def rowStrOK (r : List Value) : Bool :=
  r.all fun v =>
    match v with
    | .vStr s =>
      (parseBool s).isNone && (parseIntChars s.data).isNone &&
        (parseFloatChars s.data).isNone
    | _ => true

/-- Modelled from the spec: `head` returns the first `min(n, len)` elements;
    a negative count is a call error; an omitted count defaults to 1. -/
def head (C : List α) (n : Option ℤ) : Except String (List α) :=
  let k := n.getD 1
  if k < 0 then Except.error "head: negative count" else Except.ok (C.take k.toNat)

/-- Modelled from the spec: `rows` returns the records at the given 0-based
    indices in the order given, silently skipping out-of-range indices. -/
def rows (C : List α) (idxs : List ℤ) : List α :=
  idxs.filterMap (fun i => if i < 0 then none else C.get? i.toNat)

/-- Sort key of a record: the value in column `i`, with a missing field
    reading as the empty string (the minimum), as the spec prescribes. -/
def keyAt (i : ℕ) (r : List Value) : Value := r.getD i (Value.vStr "")

/-- Modelled from the spec: the record comparison used by `sortSlice` for the
    field at column `i`, flipped when `desc` is set. -/
def rowLt (i : ℕ) (desc : Bool) (r s : List Value) : Bool :=
  if desc then valueLT (keyAt i s) (keyAt i r) else valueLT (keyAt i r) (keyAt i s)

/-- Modelled from the spec: stable sort of the rows by the named field. -/
def sortedRows (c : Collection) (field : String) (desc : Bool) : List (List Value) :=
  insSort (rowLt (c.names.indexOf field) desc) c.rows

/-- Modelled from the spec: `sort` — the direction is optional, defaults to
    ascending, must be `asc` or `dsc` when given, and the sort is stable and
    returns a new collection. -/
def sortSlice (c : Collection) (field : String) (direction : Option String) :
    Except String Collection :=
  match direction with
  | none => Except.ok ⟨c.names, c.kinds, sortedRows c field false⟩
  | some d =>
    if d = "asc" then Except.ok ⟨c.names, c.kinds, sortedRows c field false⟩
    else if d = "dsc" then Except.ok ⟨c.names, c.kinds, sortedRows c field true⟩
    else Except.error ("invalid direction: " ++ d)

/-- Modelled from the spec: the logical string grid produced by rendering a
    collection with `table` — a header row of field names followed by one row
    of canonically rendered cells per record (the tab-alignment whitespace of
    the concrete text layout carries no information and is not modelled). -/
def tableGrid (c : Collection) : List (List String) :=
  c.names :: c.rows.map (fun r => r.map renderValue)

/-- Modelled from the spec: column-kind inference for `totable` — try
    boolean, then integer, then floating point, falling back to string. -/
def inferKind (s : String) : Kind :=
  if (parseBool s).isSome then .kBool
  else if (parseIntChars s.data).isSome then .kInt
  else if (parseFloatChars s.data).isSome then .kFloat
  else .kStr

/-- Parse one cell under an established column kind. -/
def parseCell : Kind → String → Option Value
  | .kBool, s => (parseBool s).map Value.vBool
  | .kInt, s => (parseIntChars s.data).map Value.vInt
  | .kFloat, s => (parseFloatChars s.data).map Value.vFloat
  | .kStr, s => some (Value.vStr s)

/-- Parse a row of cells under the established column kinds; `none` when any
    cell fails to parse or the widths disagree. -/
def parseRow : List Kind → List String → Option (List Value)
  | [], [] => some []
  | k :: ks, s :: ss =>
    match parseCell k s, parseRow ks ss with
    | some v, some vs => some (v :: vs)
    | _, _ => none
  | _, _ => none

/-- Parse every data row under the established column kinds. -/
def parseRows (ks : List Kind) : List (List String) → Option (List (List Value))
  | [] => some []
  | r :: rs =>
    match parseRow ks r, parseRows ks rs with
    | some v, some vs => some (v :: vs)
    | _, _ => none

/-- Characters that may appear in a Go identifier: ASCII letters, digits and
    the underscore. -/
def isIdentChar (c : Char) : Bool :=
  (decide (65 ≤ c.toNat) && decide (c.toNat ≤ 90)) ||
    (decide (97 ≤ c.toNat) && decide (c.toNat ≤ 122)) ||
    (decide (48 ≤ c.toNat) && decide (c.toNat ≤ 57)) || c == '_'

/-- Whether a character list starts with a decimal digit. -/
def startsWithDigit : List Char → Bool
  | [] => false
  | c :: _ => isDigitChar c

/-- Replace every character that cannot appear in an identifier by an
    underscore. -/
def sanitizeChars (l : List Char) : List Char :=
  l.map fun c => if isIdentChar c then c else '_'

/-- Modelled from the spec: sanitisation of one field name — non-identifier
    characters are replaced by underscores and a leading digit gets an
    underscore prefix, so names that are already valid identifiers pass
    through unchanged. -/
def sanitizeName (s : String) : String :=
  if startsWithDigit s.data then ⟨'_' :: sanitizeChars s.data⟩ else ⟨sanitizeChars s.data⟩

/-- Names that sanitisation leaves alone: non-empty, not starting with a
    digit, made of identifier characters. -/
def validIdentb (s : String) : Bool :=
  !(s == "") && !(startsWithDigit s.data) && s.data.all isIdentChar

/-- Row-0 requirement of the spec: every field name non-empty, no name
    repeated. -/
def namesOK : List String → Bool
  | [] => true
  | s :: rest => !(s == "") && !(decide (s ∈ rest)) && namesOK rest

/-- Append underscores to `s` until it avoids `taken`; the fuel exceeds the
    number of taken names, so a free candidate is always reached. -/
def freshen (taken : List String) : ℕ → String → String
  | 0, s => s
  | fuel + 1, s => if s ∈ taken then freshen taken fuel (s ++ "_") else s

/-- Modelled from the spec: collision disambiguation — walk the sanitised
    names left to right and rename any repeat of an earlier name. -/
def uniquify : List String → List String → List String
  | _, [] => []
  | taken, s :: rest =>
    freshen taken (taken.length + 1) s ::
      uniquify (taken ++ [freshen taken (taken.length + 1) s]) rest

/-- Modelled from the spec: the field names `totable` derives from row 0 —
    each name sanitised into an identifier, collisions disambiguated. -/
def sanitizeNames (names : List String) : List String :=
  uniquify [] (names.map sanitizeName)

/-- Modelled from the spec: `totable` — the input grid needs at least two
    rows; row 0 carries the field names, which must be non-empty and unique
    and are sanitised into identifiers with collisions disambiguated; each
    column kind is inferred from row 1 (boolean, then integer, then float,
    then string) and every further value must parse under that kind or the
    call fails. -/
def toTable (grid : List (List String)) : Except String Collection :=
  match grid with
  | hdr :: row1 :: rest =>
    if namesOK hdr then
      if (row1 :: rest).all (fun r => r.length == hdr.length) then
        match parseRows (row1.map inferKind) (row1 :: rest) with
        | some rs => Except.ok ⟨sanitizeNames hdr, row1.map inferKind, rs⟩
        | none => Except.error "totable: cell does not parse under the inferred column kind"
      else Except.error "totable: rows have differing lengths"
    else Except.error "totable: field names must be non-empty and unique"
  | _ => Except.error "totable: input needs at least two rows"

/-- Template functions a `Config` can hold.  Their bodies live behind the
    template evaluator and are opaque to the registration logic; custom
    functions are told apart by a tag. -/
inductive Fn where
  | filterByField
  | filterByContains
  | filterByHasPrefix
  | filterByHasSuffix
  | filterByFolded
  | filterByRegexp
  | toJSON
  | toCSV
  | selectField
  | selectFieldAlt
  | table
  | tableAlt
  | tablex
  | tablexAlt
  | htable
  | htableAlt
  | htablex
  | htablexAlt
  | cols
  | sortSlice
  | rows
  | head
  | tail
  | describe
  | promote
  | sliceof
  | toTable
  | custom (k : ℕ)
deriving DecidableEq

/-- Help-ordering priority constants, from the source's `iota` block. -/
def helpFilterIndex : ℕ := 0

def helpFilterContainsIndex : ℕ := 1

def helpFilterHasPrefixIndex : ℕ := 2

def helpFilterHasSuffixIndex : ℕ := 3

def helpFilterFoldedIndex : ℕ := 4

def helpFilterRegexpIndex : ℕ := 5

def helpToJSONIndex : ℕ := 6

def helpToCSVIndex : ℕ := 7

def helpSelectIndex : ℕ := 8

def helpSelectAltIndex : ℕ := 9

def helpTableIndex : ℕ := 10

def helpTableAltIndex : ℕ := 11

def helpTableXIndex : ℕ := 12

def helpTableXAltIndex : ℕ := 13

def helpHTableIndex : ℕ := 14

def helpHTableAltIndex : ℕ := 15

def helpHTableXIndex : ℕ := 16

def helpHTableXAltIndex : ℕ := 17

def helpColsIndex : ℕ := 18

def helpSortIndex : ℕ := 19

def helpRowsIndex : ℕ := 20

def helpHeadIndex : ℕ := 21

def helpTailIndex : ℕ := 22

def helpDescribeIndex : ℕ := 23

def helpPromoteIndex : ℕ := 24

def helpSliceofIndex : ℕ := 25

def helpToTableIndex : ℕ := 26

def helpIndexCount : ℕ := 27

/-- Help entry: function name, usage text, ordering priority. -/
structure FuncHelpInfo where
  name : String
  help : String
  index : ℕ
deriving DecidableEq

/-- The configuration: the function map (an association list standing in for
    Go's map, consulted only through lookup) and the help entries. -/
structure Config where
  funcMap : List (String × Fn)
  funcHelp : List FuncHelpInfo
deriving DecidableEq

/-- Go's `unicode.IsSpace`: the Unicode `White_Space` code points — tab
    through carriage return, space, next line, no-break space, ogham space
    mark, the U+2000 to U+200A spaces, line separator, paragraph separator,
    narrow no-break space, medium mathematical space and ideographic space. -/
def goIsSpace (c : Char) : Bool :=
  c == ' ' || c == '\t' || c == '\n' || decide (c.toNat = 11) || decide (c.toNat = 12) ||
    c == '\r' || decide (c.toNat = 0x85) || decide (c.toNat = 0xA0) ||
    decide (c.toNat = 0x1680) ||
    (decide (0x2000 ≤ c.toNat) && decide (c.toNat ≤ 0x200A)) ||
    decide (c.toNat = 0x2028) || decide (c.toNat = 0x2029) ||
    decide (c.toNat = 0x202F) || decide (c.toNat = 0x205F) || decide (c.toNat = 0x3000)

/-- Model of `strings.TrimRightFunc s unicode.IsSpace`. -/
def trimRightSpace (s : String) : String := ⟨(s.data.reverse.dropWhile goIsSpace).reverse⟩

/-- Translation of `Config.AddCustomFn`: fail when the name is taken;
    otherwise register the function and, when the right-trimmed help text is
    non-empty, record it with one newline appended under `helpIndexCount`.
    The mutation of the Go receiver is returned as the first component, the
    error as the second. -/
def Config.AddCustomFn (c : Config) (fn : Fn) (name helpText : String) :
    Config × Option String :=
  if (c.funcMap.lookup name).isSome then (c, some (name ++ " already exists"))
  else if trimRightSpace helpText = "" then
    ({ c with funcMap := c.funcMap ++ [(name, fn)] }, none)
  else
    ({ funcMap := c.funcMap ++ [(name, fn)],
       funcHelp := c.funcHelp ++ [⟨name, trimRightSpace helpText ++ "\n", helpIndexCount⟩] },
     none)

/-- Shared shape of every source `Opt*` function: when the name is absent,
    add the implementation to the function map and append the help entry. -/
def optEnable (name : String) (fn : Fn) (help : String) (idx : ℕ) (c : Config) : Config :=
  if (c.funcMap.lookup name).isSome then c
  else { funcMap := c.funcMap ++ [(name, fn)], funcHelp := c.funcHelp ++ [⟨name, help, idx⟩] }

/-- Source text of the Go constant `helpFilter`. -/
def helpFilter : String :=
  "- 'filter' operates on an slice or array of structures.  It allows the caller\n  to filter the input array based on the value of a single field.\n  The function returns a slice containing only the objects that satisfy the\n  filter, e.g.\n\n  \x7b\x7blen (filter . \"Protected\" \"true\")\x7d\x7d\n\n  outputs the number of elements whose \"Protected\" field is equal to \"true\".\n"

/-- Source text of the Go constant `helpFilterContains`. -/
def helpFilterContains : String :=
  "- 'filterContains' operates along the same lines as filter, but returns\n  substring matches\n\n  \x7b\x7blen(filterContains . \"Name\" \"Cloud\"\x7d\x7d)\n\n  outputs the number of elements whose \"Name\" field contains the word \"Cloud\".\n"

/-- Source text of the Go constant `helpFilterHasPrefix`. -/
def helpFilterHasPrefix : String :=
  "- 'filterHasPrefix' is similar to filter, but returns prefix matches.\n"

/-- Source text of the Go constant `helpFilterHasSuffix`. -/
def helpFilterHasSuffix : String :=
  "- 'filterHasSuffix' is similar to filter, but returns suffix matches.\n"

/-- Source text of the Go constant `helpFilterFolded`. -/
def helpFilterFolded : String :=
  "- 'filterFolded' is similar to filter, but returns matches based on equality\n  under Unicode case-folding.\n"

/-- Source text of the Go constant `helpFilterRegexp`. -/
def helpFilterRegexp : String :=
  "- 'filterRegexp' is similar to filter, but returns matches based on regular\n  expression matching\n\n  \x7b\x7blen (filterRegexp . \"Name\" \"^Docker[ a-zA-z]*latest$\"\x7d\x7d)\n\n  outputs the number of elements whose \"Name\" field have 'Docker' as a prefix\n  and 'latest' as a suffix in their name.\n"

/-- Source text of the Go constant `helpToJSON`. -/
def helpToJSON : String :=
  "- 'tojson' outputs the target object in json format, e.g., \x7b\x7btojson .\x7d\x7d\n"

/-- Source text of the Go constant `helpToCSV`. -/
def helpToCSV : String :=
  "- 'tocsv' converts a [][]string or a slice of structs to csv format, e.g.,\n  \x7b\x7btocsv .\x7d\x7d\n\n  'tocsv' takes an optional boolean parameter, which if true, omits the\n  first row containing the structure field name derived column headings.\n  This boolean parameter defaults to false and is ignored when operating\n  on a [][]string.\n"

/-- Source text of the Go constant `helpSelect`. -/
def helpSelect : String :=
  "- 'select' operates on a slice of structs.  It outputs the value of a specified\n  field for each struct on a new line , e.g.,\n\n  \x7b\x7bselect . \"Name\"\x7d\x7d\n\n  prints the 'Name' field of each structure in the slice.\n"

/-- Source text of the Go constant `helpSelectAlt`. -/
def helpSelectAlt : String :=
  "- 'selectalt' Similar to select except that objects are formatted using %#v\n"

/-- Source text of the Go constant `helpTable`. -/
def helpTable : String :=
  "- 'table' outputs a table given an array or a slice of structs.  The table\n  headings are taken from the names of the structs fields.  Hidden fields and\n  fields of type channel are ignored.  The tabwidth and minimum column width\n  are hardcoded to 8.  An example of table's usage is\n\n  \x7b\x7btable .\x7d\x7d\n"

/-- Source text of the Go constant `helpTableAlt`. -/
def helpTableAlt : String :=
  "- 'tablealt' Similar to table except that objects are formatted using %#v\n"

/-- Source text of the Go constant `helpTableX`. -/
def helpTableX : String :=
  "- 'tablex' is similar to table but it allows the caller more control over the\n  table's appearance.  Users can control the names of the headings and also set\n  the tab and column width.  'tablex' takes 4 or more parameters.  The first\n  parameter is the slice of structs to output, the second is the minimum column\n  width, the third the tab width  and the fourth is the padding.  The fifth and\n  subsequent parameters are the names of the column headings.  The column\n  headings are optional and the field names of the structure will be used if\n  they are absent.  Example of its usage are:\n\n  \x7b\x7btablex . 12 8 1 \"Column 1\" \"Column 2\"\x7d\x7d\n  \x7b\x7btablex . 8 8 1\x7d\x7d\n"

/-- Source text of the Go constant `helpTableXAlt`. -/
def helpTableXAlt : String :=
  "- 'tablexalt' Similar to tablex except that objects are formatted using %#v\n"

/-- Source text of the Go constant `helpHTable`. -/
def helpHTable : String :=
  "- 'htable' outputs each element of an array or a slice of structs\n  in its own two column table.  The values for the first column are taken from\n  the names of the structs' fields.  The second column contains the field values.\n  Hidden fields and fields of type channel are ignored. The tabwidth and minimum\n  column width are hardcoded to 8.  An example of htable's usage is\n\n  \x7b\x7bhtable .\x7d\x7d\n"

/-- Source text of the Go constant `helpHTableAlt`. -/
def helpHTableAlt : String :=
  "- 'htablealt' Similar to htable except that objects are formatted using %#v\n"

/-- Source text of the Go constant `helpHTableX`. -/
def helpHTableX : String :=
  "- 'htablex' is similar to htable but it allows the caller more control over the\n  tables' appearances.  Users can control the names displayed in the first column\n  and also set the tab and column width.  'htablex' takes 4 or more parameters.\n  The first parameter is the slice of structs to output, the second is the minimum\n  column width, the third the tab width  and the fourth is the padding.  The\n  fifth and subsequent parameters are the values displayed in the first column\n  of each table.  These first column values are optional and the field names of\n  the structures will be used if they are absent.  Example of its usage are:\n\n  \x7b\x7bhtablex . 12 8 1 \"Field 1\" \"Field 2\"\x7d\x7d\n  \x7b\x7bhtablex . 8 8 1\x7d\x7d\n"

/-- Source text of the Go constant `helpHTableXAlt`. -/
def helpHTableXAlt : String :=
  "- 'htablexalt' Similar to htablex except that objects are formatted using %#v\n"

/-- Source text of the Go constant `helpCols`. -/
def helpCols : String :=
  "- 'cols' can be used to extract certain columns from a table consisting of a\n  slice or array of structs.  It returns a new slice of structs which contain\n  only the fields requested by the caller.   For example, given a slice of structs\n\n  \x7b\x7bcols . \"Name\" \"Address\"\x7d\x7d\n\n  returns a new slice of structs, each element of which is a structure with only\n  two fields, 'Name' and 'Address'.\n"

/-- Source text of the Go constant `helpSort`. -/
def helpSort : String :=
  "- 'sort' sorts a slice or an array of structs.  It takes three parameters.  The\n  first is the slice; the second is the name of the structure field by which to\n  'sort'; the third provides the direction of the 'sort'.  The third parameter is\n  optional.  If provided, it must be either \"asc\" or \"dsc\".  If omitted the\n  elements of the slice are sorted in ascending order.  The type of the second\n  field can be a number or a string.  When presented with another type, 'sort'\n  will try to sort the elements by the string representation of the chosen field.\n  The following example sorts a slice in ascending order by the Name field.\n  \n  \x7b\x7bsort . \"Name\"\x7d\x7d\n"

/-- Source text of the Go constant `helpRows`. -/
def helpRows : String :=
  "- 'rows' is used to extract a set of given rows from a slice or an array.  It\n  takes at least two parameters. The first is the slice on which to operate.\n  All subsequent parameters must be integers that correspond to a row in the\n  input slice.  Indicies that refer to non-existent rows are ignored.  For\n  example:\n\n  \x7b\x7brows . 1 2\x7d\x7d\n\n  extracts the 2nd and 3rd rows from the slice represented by '.'.\n"

/-- Source text of the Go constant `helpHead`. -/
def helpHead : String :=
  "- 'head' operates on a slice or an array, returning the first n elements of\n  that array as a new slice.  If n is not provided, a slice containing the\n  first element of the input slice is returned.  For example,\n\n  \x7b\x7b head .\x7d\x7d\n\n  returns a single element slice containing the first element of '.' and\n\n  \x7b\x7b head . 3\x7d\x7d\n\n  returns a slice containing the first three elements of '.'.  If '.' contains\n  only 2 elements the slice returned by \x7b\x7b head . 3\x7d\x7d would be identical to the\n  input slice.\n"

/-- Source text of the Go constant `helpTail`. -/
def helpTail : String :=
  "- 'tail' is similar to head except that it returns a slice containing the last\n  n elements of the input slice.  For example,\n\n  \x7b\x7btail . 2\x7d\x7d\n\n  returns a new slice containing the last two elements of '.'.\n"

/-- Source text of the Go constant `helpDescribe`. -/
def helpDescribe : String :=
  "- 'describe' takes a single argument and outputs a description of the\n  type of that argument.  It can be useful if the type of the object\n  operated on by a template program is not described in the help of the\n  tool that executes the template.\n\n  \x7b\x7bdescribe . \x7d\x7d\n\n outputs a description of the type of '.'.\n"

/-- Source text of the Go constant `helpPromote`. -/
def helpPromote : String :=
  "- 'promote' takes two arguments, a slice or an array of structures and a field\n  path.  It returns a new slice containing only the objects identified by the\n  field path.  The field path is a period separated list of structure field\n  names.  Promote can be useful to extract a set of objects deep within a data\n  structure into a new slice that can be passed to other functions, e.g., table.\n  For example, given the following type\n \n   []struct \x7b\n      uninteresting int\n      user struct \x7b\n          credentials struct \x7b\n              name string\n              password string\n          \x7d\n      \x7d\n  \x7d\n\n  \x7b\x7bpromote . \"user.credentials\"\x7d\x7d\n\n  returns a slice of credentials one for each element of the original top level\n  slice.\n"

/-- Source text of the Go constant `helpSliceof`. -/
def helpSliceof : String :=
  "- 'sliceof' takes one argument and returns a new slice containing only that\nargument.\n"

/-- Source text of the Go constant `helpToTable`. -/
def helpToTable : String :=
  "- 'totable' converts a slice of a slice of strings into a slice of\n  structures.  The field names of the structures are taken from the values of\n  the first row in the slice.  The types of the fields are derived from the\n  values specified in the second row.  The input slice should be of length 2\n  or greater.  Data in columns in the second and subsequent rows should be\n  homogenous.  The elements of the first row should be unique and ideally be\n  valid exported variable names.  'totable' will try to sanitize the field\n  names, if they are not valid go identifiers.\n"

/-- Translation of `OptFilter`. -/
def OptFilter : Config → Config := optEnable "filter" Fn.filterByField helpFilter helpFilterIndex

/-- Translation of `OptFilterContains`. -/
def OptFilterContains : Config → Config :=
  optEnable "filterContains" Fn.filterByContains helpFilterContains helpFilterContainsIndex

/-- Translation of `OptFilterHasPrefix`. -/
def OptFilterHasPrefix : Config → Config :=
  optEnable "filterHasPrefix" Fn.filterByHasPrefix helpFilterHasPrefix helpFilterHasPrefixIndex

/-- Translation of `OptFilterHasSuffix`. -/
def OptFilterHasSuffix : Config → Config :=
  optEnable "filterHasSuffix" Fn.filterByHasSuffix helpFilterHasSuffix helpFilterHasSuffixIndex

/-- Translation of `OptFilterFolded`. -/
def OptFilterFolded : Config → Config :=
  optEnable "filterFolded" Fn.filterByFolded helpFilterFolded helpFilterFoldedIndex

/-- Translation of `OptFilterRegexp`. -/
def OptFilterRegexp : Config → Config :=
  optEnable "filterRegexp" Fn.filterByRegexp helpFilterRegexp helpFilterRegexpIndex

/-- Translation of `OptAllFilters`. -/
def OptAllFilters (c : Config) : Config :=
  OptFilterRegexp (OptFilterFolded (OptFilterHasSuffix (OptFilterHasPrefix
    (OptFilterContains (OptFilter c)))))

/-- Translation of `OptToJSON`. -/
def OptToJSON : Config → Config := optEnable "tojson" Fn.toJSON helpToJSON helpToJSONIndex

/-- Translation of `OptToCSV`. -/
def OptToCSV : Config → Config := optEnable "tocsv" Fn.toCSV helpToCSV helpToCSVIndex

/-- Translation of `OptSelect`. -/
def OptSelect : Config → Config := optEnable "select" Fn.selectField helpSelect helpSelectIndex

/-- Translation of `OptSelectAlt`. -/
def OptSelectAlt : Config → Config :=
  optEnable "selectalt" Fn.selectFieldAlt helpSelectAlt helpSelectAltIndex

/-- Translation of `OptTable`. -/
def OptTable : Config → Config := optEnable "table" Fn.table helpTable helpTableIndex

/-- Translation of `OptTableAlt`. -/
def OptTableAlt : Config → Config :=
  optEnable "tablealt" Fn.tableAlt helpTableAlt helpTableAltIndex

/-- Translation of `OptTableX`. -/
def OptTableX : Config → Config := optEnable "tablex" Fn.tablex helpTableX helpTableXIndex

/-- Translation of `OptTableXAlt`. -/
def OptTableXAlt : Config → Config :=
  optEnable "tablexalt" Fn.tablexAlt helpTableXAlt helpTableXAltIndex

/-- Translation of `OptHTable`. -/
def OptHTable : Config → Config := optEnable "htable" Fn.htable helpHTable helpHTableIndex

/-- Translation of `OptHTableAlt`. -/
def OptHTableAlt : Config → Config :=
  optEnable "htablealt" Fn.htableAlt helpHTableAlt helpHTableAltIndex

/-- Translation of `OptHTableX`. -/
def OptHTableX : Config → Config :=
  optEnable "htablex" Fn.htablex helpHTableX helpHTableXIndex

/-- Translation of `OptHTableXAlt`. -/
def OptHTableXAlt : Config → Config :=
  optEnable "htablexalt" Fn.htablexAlt helpHTableXAlt helpHTableXAltIndex

/-- Translation of `OptCols`. -/
def OptCols : Config → Config := optEnable "cols" Fn.cols helpCols helpColsIndex

/-- Translation of `OptSort`. -/
def OptSort : Config → Config := optEnable "sort" Fn.sortSlice helpSort helpSortIndex

/-- Translation of `OptRows`. -/
def OptRows : Config → Config := optEnable "rows" Fn.rows helpRows helpRowsIndex

/-- Translation of `OptHead`. -/
def OptHead : Config → Config := optEnable "head" Fn.head helpHead helpHeadIndex

/-- Translation of `OptTail`. -/
def OptTail : Config → Config := optEnable "tail" Fn.tail helpTail helpTailIndex

/-- Translation of `OptDescribe`. -/
def OptDescribe : Config → Config :=
  optEnable "describe" Fn.describe helpDescribe helpDescribeIndex

/-- Translation of `OptPromote`. -/
def OptPromote : Config → Config := optEnable "promote" Fn.promote helpPromote helpPromoteIndex

/-- Translation of `OptSliceof`. -/
def OptSliceof : Config → Config := optEnable "sliceof" Fn.sliceof helpSliceof helpSliceofIndex

/-- Translation of `OptToTable`. -/
def OptToTable : Config → Config := optEnable "totable" Fn.toTable helpToTable helpToTableIndex

/-- Enumeration of the individual built-in `Opt*` registration functions. -/
inductive BOpt where
  | filter
  | filterContains
  | filterHasPrefix
  | filterHasSuffix
  | filterFolded
  | filterRegexp
  | tojson
  | tocsv
  | select
  | selectalt
  | table
  | tablealt
  | tablex
  | tablexalt
  | htable
  | htablealt
  | htablex
  | htablexalt
  | cols
  | sort
  | rows
  | head
  | tail
  | describe
  | promote
  | sliceof
  | totable
deriving DecidableEq, Fintype

/-- The help entry each built-in option registers. -/
def bEntry : BOpt → FuncHelpInfo
  | .filter => ⟨"filter", helpFilter, helpFilterIndex⟩
  | .filterContains => ⟨"filterContains", helpFilterContains, helpFilterContainsIndex⟩
  | .filterHasPrefix => ⟨"filterHasPrefix", helpFilterHasPrefix, helpFilterHasPrefixIndex⟩
  | .filterHasSuffix => ⟨"filterHasSuffix", helpFilterHasSuffix, helpFilterHasSuffixIndex⟩
  | .filterFolded => ⟨"filterFolded", helpFilterFolded, helpFilterFoldedIndex⟩
  | .filterRegexp => ⟨"filterRegexp", helpFilterRegexp, helpFilterRegexpIndex⟩
  | .tojson => ⟨"tojson", helpToJSON, helpToJSONIndex⟩
  | .tocsv => ⟨"tocsv", helpToCSV, helpToCSVIndex⟩
  | .select => ⟨"select", helpSelect, helpSelectIndex⟩
  | .selectalt => ⟨"selectalt", helpSelectAlt, helpSelectAltIndex⟩
  | .table => ⟨"table", helpTable, helpTableIndex⟩
  | .tablealt => ⟨"tablealt", helpTableAlt, helpTableAltIndex⟩
  | .tablex => ⟨"tablex", helpTableX, helpTableXIndex⟩
  | .tablexalt => ⟨"tablexalt", helpTableXAlt, helpTableXAltIndex⟩
  | .htable => ⟨"htable", helpHTable, helpHTableIndex⟩
  | .htablealt => ⟨"htablealt", helpHTableAlt, helpHTableAltIndex⟩
  | .htablex => ⟨"htablex", helpHTableX, helpHTableXIndex⟩
  | .htablexalt => ⟨"htablexalt", helpHTableXAlt, helpHTableXAltIndex⟩
  | .cols => ⟨"cols", helpCols, helpColsIndex⟩
  | .sort => ⟨"sort", helpSort, helpSortIndex⟩
  | .rows => ⟨"rows", helpRows, helpRowsIndex⟩
  | .head => ⟨"head", helpHead, helpHeadIndex⟩
  | .tail => ⟨"tail", helpTail, helpTailIndex⟩
  | .describe => ⟨"describe", helpDescribe, helpDescribeIndex⟩
  | .promote => ⟨"promote", helpPromote, helpPromoteIndex⟩
  | .sliceof => ⟨"sliceof", helpSliceof, helpSliceofIndex⟩
  | .totable => ⟨"totable", helpToTable, helpToTableIndex⟩

/-- Name under which each built-in option registers its function. -/
def bName (b : BOpt) : String := (bEntry b).name

/-- Implementation each built-in option registers. -/
def bFn : BOpt → Fn
  | .filter => Fn.filterByField
  | .filterContains => Fn.filterByContains
  | .filterHasPrefix => Fn.filterByHasPrefix
  | .filterHasSuffix => Fn.filterByHasSuffix
  | .filterFolded => Fn.filterByFolded
  | .filterRegexp => Fn.filterByRegexp
  | .tojson => Fn.toJSON
  | .tocsv => Fn.toCSV
  | .select => Fn.selectField
  | .selectalt => Fn.selectFieldAlt
  | .table => Fn.table
  | .tablealt => Fn.tableAlt
  | .tablex => Fn.tablex
  | .tablexalt => Fn.tablexAlt
  | .htable => Fn.htable
  | .htablealt => Fn.htableAlt
  | .htablex => Fn.htablex
  | .htablexalt => Fn.htablexAlt
  | .cols => Fn.cols
  | .sort => Fn.sortSlice
  | .rows => Fn.rows
  | .head => Fn.head
  | .tail => Fn.tail
  | .describe => Fn.describe
  | .promote => Fn.promote
  | .sliceof => Fn.sliceof
  | .totable => Fn.toTable

/-- Ordering priority of each built-in option, mirroring the `iota` block. -/
def bIndex : BOpt → ℕ
  | .filter => 0
  | .filterContains => 1
  | .filterHasPrefix => 2
  | .filterHasSuffix => 3
  | .filterFolded => 4
  | .filterRegexp => 5
  | .tojson => 6
  | .tocsv => 7
  | .select => 8
  | .selectalt => 9
  | .table => 10
  | .tablealt => 11
  | .tablex => 12
  | .tablexalt => 13
  | .htable => 14
  | .htablealt => 15
  | .htablex => 16
  | .htablexalt => 17
  | .cols => 18
  | .sort => 19
  | .rows => 20
  | .head => 21
  | .tail => 22
  | .describe => 23
  | .promote => 24
  | .sliceof => 25
  | .totable => 26

/-- Dispatch from the enumeration to the translated option functions. -/
def applyBOpt : BOpt → Config → Config
  | .filter => OptFilter
  | .filterContains => OptFilterContains
  | .filterHasPrefix => OptFilterHasPrefix
  | .filterHasSuffix => OptFilterHasSuffix
  | .filterFolded => OptFilterFolded
  | .filterRegexp => OptFilterRegexp
  | .tojson => OptToJSON
  | .tocsv => OptToCSV
  | .select => OptSelect
  | .selectalt => OptSelectAlt
  | .table => OptTable
  | .tablealt => OptTableAlt
  | .tablex => OptTableX
  | .tablexalt => OptTableXAlt
  | .htable => OptHTable
  | .htablealt => OptHTableAlt
  | .htablex => OptHTableX
  | .htablexalt => OptHTableXAlt
  | .cols => OptCols
  | .sort => OptSort
  | .rows => OptRows
  | .head => OptHead
  | .tail => OptTail
  | .describe => OptDescribe
  | .promote => OptPromote
  | .sliceof => OptSliceof
  | .totable => OptToTable

/-- All built-in options, in priority order. -/
def allBOpts : List BOpt :=
  [.filter, .filterContains, .filterHasPrefix, .filterHasSuffix, .filterFolded,
   .filterRegexp, .tojson, .tocsv, .select, .selectalt, .table, .tablealt,
   .tablex, .tablexalt, .htable, .htablealt, .htablex, .htablexalt, .cols,
   .sort, .rows, .head, .tail, .describe, .promote, .sliceof, .totable]

/-- Modelled from the spec: the package-level slice of all help entries
    (declared in the implementation file that is absent from the tree). -/
def funcHelpSlice : List FuncHelpInfo := allBOpts.map bEntry

/-- Modelled from the spec: the package-level map of all template functions
    (declared in the implementation file that is absent from the tree). -/
def funcMapAll : List (String × Fn) := allBOpts.map (fun b => (bName b, bFn b))

/-- Translation of `OptAllFns`: reset the config to every built-in function
    and its help. -/
def OptAllFns (_c : Config) : Config := ⟨funcMapAll, funcHelpSlice⟩

/-- Modelled from the spec: `getHelpers` — a nil config means every built-in
    helper, otherwise the config's own help entries. -/
def getHelpers : Option Config → List FuncHelpInfo
  | none => funcHelpSlice
  | some c => c.funcHelp

/-- Modelled from the spec: `getFuncMap` — a nil config means every built-in
    function, otherwise the config's own function map. -/
def getFuncMap : Option Config → List (String × Fn)
  | none => funcMapAll
  | some c => c.funcMap

/-- Translation of `NewConfig`: fold the option functions over an empty
    config, then sort the help entries by priority (`sort.Sort` on the
    `Config` receiver, whose `Less` compares `index`). -/
def NewConfig (options : List (Config → Config)) : Config :=
  let c := options.foldl (fun c f => f c) { funcMap := [], funcHelp := [] }
  { c with funcHelp := insSort (fun a b => decide (a.index < b.index)) c.funcHelp }

/-- Translation of `TemplateFunctionHelp`: the fixed banner followed by each
    helper's usage text in help-list order. -/
def TemplateFunctionHelp (c : Option Config) : String :=
  (getHelpers c).foldl (fun acc h => acc ++ h.help)
    "Some new functions have been added to Go's template language\n\n"

/-- Translation of `TemplateFunctionNames`. -/
def TemplateFunctionNames (c : Option Config) : List String :=
  (getHelpers c).map FuncHelpInfo.name

/-- Translation of `TemplateFunctionHelpSingle`: the first matching helper's
    text, or an error when the name has no helper. -/
def TemplateFunctionHelpSingle (name : String) (c : Option Config) : Except String String :=
  match (getHelpers c).find? (fun h => h.name == name) with
  | some h => Except.ok h.help
  | none => Except.error (name ++ " is not defined")

/-- Outcome of handing a template source to the external `text/template`
    parser: the parser is outside this library, so the model records exactly
    what `CreateTemplate` passes on to it. -/
inductive TmplResult where
  | parsed (name : String) (fns : List (String × Fn)) (src : String)
deriving DecidableEq

/-- Translation of `CreateTemplate`: an empty source is rejected up front;
    otherwise the name, the enabled function map and the source are handed to
    the external template parser. -/
def CreateTemplate (name tmplSrc : String) (cfg : Option Config) : Except String TmplResult :=
  if tmplSrc = "" then Except.error ("template " ++ name ++ " contains no source")
  else Except.ok (TmplResult.parsed name (getFuncMap cfg) tmplSrc)

/-- Option-function form of adding a custom function, as a caller would pass
    to `NewConfig`; the error result is discarded, as a `func(*Config)`
    wrapper must. -/
def customOpt (fn : Fn) (name helpText : String) (c : Config) : Config :=
  (c.AddCustomFn fn name helpText).1

/-- Accumulate an option unless one of the same identity was already seen;
    the specification of what a fold of registrations retains. -/
def addB (acc : List BOpt) (b : BOpt) : List BOpt := if b ∈ acc then acc else acc ++ [b]

/-- First-occurrence deduplication of an option list. -/
def dedupB (l : List BOpt) : List BOpt := l.foldl addB []

/-- The config a list of distinct built-in options builds, in order. -/
def configOf (acc : List BOpt) : Config :=
  ⟨acc.map (fun b => (bName b, bFn b)), acc.map bEntry⟩

/-- Two-record, one-string-column collection whose first cell looks like an
    integer; the input refuting the unrestricted round-trip claim. -/
def gridTrap : Collection := ⟨["F"], [Kind.kStr], [[Value.vStr "1"], [Value.vStr "abc"]]⟩

/-- Concrete well-formed collection exercising all four kinds, used to
    instantiate the round-trip theorem. -/
def roundTripSample : Collection :=
  ⟨["Name", "N", "X", "B"], [Kind.kStr, Kind.kInt, Kind.kFloat, Kind.kBool],
   [[Value.vStr "abc", Value.vInt (-12), Value.vFloat ⟨false, 1, [5]⟩, Value.vBool true],
    [Value.vStr "zz", Value.vInt 7, Value.vFloat ⟨true, 0, [2, 5]⟩, Value.vBool false]]⟩

/-- Inserting an element is a permutation of consing it. -/
theorem insElem_perm (lt : α → α → Bool) (x : α) (l : List α) :
    (insElem lt x l).Perm (x :: l) := by
  induction l with
  | nil => exact List.Perm.refl _
  | cons y ys ih =>
    unfold insElem
    by_cases h : lt y x = true
    · rw [if_pos h]
      exact (ih.cons y).trans (List.Perm.swap x y ys)
    · rw [if_neg h]

/-- Insertion sort permutes its input. -/
theorem insSort_perm (lt : α → α → Bool) (l : List α) : (insSort lt l).Perm l := by
  induction l with
  | nil => exact List.Perm.refl _
  | cons x xs ih => exact (insElem_perm lt x (insSort lt xs)).trans (ih.cons x)

/-- Insertion sort preserves length. -/
theorem insSort_length (lt : α → α → Bool) (l : List α) :
    (insSort lt l).length = l.length := (insSort_perm lt l).length_eq

/-- Elements of the class `p` are untouched by inserting an element outside
    the class. -/
theorem filter_insElem_neg (lt : α → α → Bool) (p : α → Bool) (x : α) (l : List α)
    (hx : p x = false) : (insElem lt x l).filter p = l.filter p := by
  induction l with
  | nil => simp [insElem, List.filter_cons, hx]
  | cons y ys ih =>
    unfold insElem
    by_cases h : lt y x = true
    · rw [if_pos h]
      rw [List.filter_cons, List.filter_cons]
      cases hy : p y <;> simp [hy, ih]
    · rw [if_neg h]
      simp [List.filter_cons, hx]

/-- An element of the class `p` that is never strictly above another member
    of the class is inserted in front of every member of the class. -/
theorem filter_insElem_pos (lt : α → α → Bool) (p : α → Bool) (x : α) (l : List α)
    (hx : p x = true) (h : ∀ y, p y = true → lt y x = false) :
    (insElem lt x l).filter p = x :: l.filter p := by
  induction l with
  | nil => simp [insElem, List.filter_cons, hx]
  | cons y ys ih =>
    unfold insElem
    by_cases hlt : lt y x = true
    · rw [if_pos hlt]
      have hy : p y = false := by
        cases hpy : p y
        · rfl
        · rw [h y hpy] at hlt
          exact absurd hlt (by simp)
      rw [List.filter_cons, List.filter_cons]
      simp [hy, ih]
    · rw [if_neg hlt]
      rw [List.filter_cons, List.filter_cons, hx]
      simp

/-- Stability of insertion sort, as preservation of every comparator-constant
    class: when members of the class never compare strictly below one
    another, their subsequence is untouched. -/
theorem insSort_filter (lt : α → α → Bool) (p : α → Bool) (l : List α)
    (h : ∀ a b, p a = true → p b = true → lt a b = false) :
    (insSort lt l).filter p = l.filter p := by
  induction l with
  | nil => rfl
  | cons x xs ih =>
    unfold insSort
    cases hx : p x
    · rw [filter_insElem_neg lt p x _ hx, ih, List.filter_cons, hx]
      simp
    · rw [filter_insElem_pos lt p x _ hx (fun y hy => h y x hy hx), ih,
        List.filter_cons, hx]
      simp

/-- Inserting with a key-based comparison preserves sortedness by the key. -/
theorem pairwise_insElem {K : Type} [LinearOrder K] (f : α → K) (x : α) (l : List α)
    (hl : l.Pairwise (fun a b => f a ≤ f b)) :
    (insElem (fun a b => decide (f a < f b)) x l).Pairwise (fun a b => f a ≤ f b) := by
  induction l with
  | nil => simp [insElem]
  | cons y ys ih =>
    rw [List.pairwise_cons] at hl
    obtain ⟨hy, hys⟩ := hl
    unfold insElem
    by_cases h : f y < f x
    · rw [if_pos (by simpa using h)]
      rw [List.pairwise_cons]
      refine ⟨fun z hz => ?_, ih hys⟩
      rcases List.mem_cons.1 ((insElem_perm _ x ys).mem_iff.1 hz) with rfl | hz
      · exact le_of_lt h
      · exact hy z hz
    · rw [if_neg (by simpa using h)]
      rw [List.pairwise_cons]
      refine ⟨fun z hz => ?_, List.Pairwise.cons hy hys⟩
      rcases List.mem_cons.1 hz with rfl | hz
      · exact le_of_not_lt h
      · exact le_trans (le_of_not_lt h) (hy z hz)

/-- Insertion sort by a key produces a key-sorted list. -/
theorem insSort_pairwise {K : Type} [LinearOrder K] (f : α → K) (l : List α) :
    (insSort (fun a b => decide (f a < f b)) l).Pairwise (fun a b => f a ≤ f b) := by
  induction l with
  | nil => simp [insSort]
  | cons x xs ih => exact pairwise_insElem f x _ ih

/-- Value of a digit list with one digit appended. -/
theorem digitsVal_append (l : List ℕ) (d : ℕ) :
    digitsVal (l ++ [d]) = 10 * digitsVal l + d := by
  unfold digitsVal
  rw [List.foldl_append]
  rfl

/-- With enough fuel, the digits of `n` evaluate back to `n`. -/
theorem digitsVal_natDigitsAux (fuel : ℕ) : ∀ n : ℕ, n ≤ fuel →
    digitsVal (natDigitsAux fuel n) = n := by
  induction fuel with
  | zero =>
    intro n hn
    interval_cases n
    rfl
  | succ fuel ih =>
    intro n hn
    unfold natDigitsAux
    by_cases hz : n = 0
    · rw [if_pos hz, hz]
      rfl
    · rw [if_neg hz, digitsVal_append, ih (n / 10) (by omega)]
      omega

/-- The decimal digits of `n` evaluate back to `n`. -/
theorem digitsVal_natDigits (n : ℕ) : digitsVal (natDigits n) = n := by
  unfold natDigits
  by_cases hz : n = 0
  · rw [if_pos hz, hz]
    rfl
  · rw [if_neg hz]
    exact digitsVal_natDigitsAux n n le_rfl

/-- Every produced digit is below ten. -/
theorem natDigitsAux_lt (fuel : ℕ) : ∀ n : ℕ, ∀ d ∈ natDigitsAux fuel n, d < 10 := by
  induction fuel with
  | zero =>
    intro n d hd
    simp [natDigitsAux] at hd
  | succ fuel ih =>
    intro n d hd
    unfold natDigitsAux at hd
    by_cases hz : n = 0
    · rw [if_pos hz] at hd
      simp at hd
    · rw [if_neg hz] at hd
      rcases List.mem_append.1 hd with h | h
      · exact ih _ d h
      · simp at h
        omega

/-- Every digit of `natDigits` is below ten. -/
theorem natDigits_lt (n : ℕ) : ∀ d ∈ natDigits n, d < 10 := by
  intro d hd
  unfold natDigits at hd
  by_cases hz : n = 0
  · rw [if_pos hz] at hd
    simp at hd
    omega
  · rw [if_neg hz] at hd
    exact natDigitsAux_lt n n d hd

/-- A number always has at least one digit. -/
theorem natDigits_ne_nil (n : ℕ) : natDigits n ≠ [] := by
  unfold natDigits
  by_cases hz : n = 0
  · rw [if_pos hz]
    simp
  · rw [if_neg hz]
    cases n with
    | zero => exact absurd rfl hz
    | succ m =>
      unfold natDigitsAux
      rw [if_neg hz]
      simp

/-- Code point of a digit character. -/
theorem digitChar_toNat {d : ℕ} (h : d < 10) : (digitChar d).toNat = 48 + d := by
  interval_cases d <;> decide

/-- Reading back a digit character gives the digit. -/
theorem digitVal_digitChar {d : ℕ} (h : d < 10) : digitVal (digitChar d) = d := by
  interval_cases d <;> decide

/-- Digit characters are digit characters. -/
theorem isDigitChar_digitChar {d : ℕ} (h : d < 10) : isDigitChar (digitChar d) = true := by
  interval_cases d <;> decide

/-- A digit character is not the minus sign. -/
theorem digitChar_ne_dash {d : ℕ} (h : d < 10) : digitChar d ≠ '-' := by
  interval_cases d <;> decide

/-- The decimal rendering of a natural number starts with a digit character. -/
theorem natChars_shape (n : ℕ) : ∃ d cs, natChars n = digitChar d :: cs ∧ d < 10 := by
  unfold natChars
  rcases hd : natDigits n with _ | ⟨d, ds⟩
  · exact absurd hd (natDigits_ne_nil n)
  · exact ⟨d, ds.map digitChar, rfl, natDigits_lt n d (hd ▸ List.mem_cons_self _ _)⟩

/-- The rendering of a natural number is all digit characters. -/
theorem natChars_all_digit (n : ℕ) : (natChars n).all isDigitChar = true := by
  rw [List.all_eq_true]
  intro c hc
  rcases List.mem_map.1 hc with ⟨d, hd, rfl⟩
  exact isDigitChar_digitChar (natDigits_lt n d hd)

/-- Parsing the rendering of a natural number gives it back. -/
theorem parseNatChars_natChars (n : ℕ) : parseNatChars (natChars n) = some n := by
  obtain ⟨d, cs, hshape, hd⟩ := natChars_shape n
  unfold parseNatChars
  rw [if_pos]
  · congr 1
    unfold natChars
    rw [List.map_map]
    simp only [Function.comp_def]
    rw [List.map_congr_left (fun d hd => digitVal_digitChar (natDigits_lt n d hd))]
    simp only [List.map_id_fun', id]
    exact digitsVal_natDigits n
  · rw [hshape]
    rw [← hshape]
    simp only [Bool.and_eq_true, natChars_all_digit n, and_true]
    rw [hshape]
    rfl

/-- Parsing the rendering of an integer gives it back. -/
theorem parseIntChars_intChars (i : ℤ) : parseIntChars (intChars i) = some i := by
  unfold parseIntChars intChars
  by_cases hi : i < 0
  · rw [if_pos hi]
    rw [if_pos (show ('-' :: natChars i.natAbs).head? = some '-' from rfl)]
    rw [List.tail_cons, parseNatChars_natChars]
    simp only [Option.map_some', Option.some.injEq, Int.ofNat_eq_coe]
    omega
  · rw [if_neg hi]
    obtain ⟨d, cs, hshape, hd⟩ := natChars_shape i.natAbs
    have hhd : (natChars i.natAbs).head? ≠ some '-' := by
      rw [hshape]
      simp only [List.head?_cons, ne_eq, Option.some.injEq]
      exact digitChar_ne_dash hd
    rw [if_neg hhd, parseNatChars_natChars]
    simp only [Option.map_some', Option.some.injEq, Int.ofNat_eq_coe]
    omega

/-- A successfully parsed boolean cell is literally `true` or `false`. -/
theorem parseBool_eq_some (s : String) (b : Bool) (h : parseBool s = some b) :
    s = "true" ∨ s = "false" := by
  unfold parseBool at h
  by_cases h1 : s = "true"
  · exact Or.inl h1
  · rw [if_neg h1] at h
    by_cases h2 : s = "false"
    · exact Or.inr h2
    · rw [if_neg h2] at h
      exact absurd h (by simp)

/-- A string whose first character is a digit or the minus sign is neither
    `true` nor `false`, so it does not parse as a boolean. -/
theorem parseBool_none_of_head (l : List Char) (c : Char) (cs : List Char)
    (hl : l = c :: cs) (hc : isDigitChar c = true ∨ c = '-') :
    parseBool ⟨l⟩ = none := by
  have hni : c ≠ 't' ∧ c ≠ 'f' := by
    rcases hc with hc | hc
    · constructor <;> intro h <;> rw [h] at hc <;> exact absurd hc (by decide)
    · rw [hc]
      exact ⟨by decide, by decide⟩
  have hti : (⟨l⟩ : String) ≠ "true" := by
    intro h
    have hdata : l = "true".data := congrArg String.data h
    rw [hl, show ("true".data : List Char) = 't' :: ['r', 'u', 'e'] from rfl] at hdata
    exact hni.1 (List.cons_eq_cons.1 hdata).1
  have hfi : (⟨l⟩ : String) ≠ "false" := by
    intro h
    have hdata : l = "false".data := congrArg String.data h
    rw [hl, show ("false".data : List Char) = 'f' :: ['a', 'l', 's', 'e'] from rfl] at hdata
    exact hni.2 (List.cons_eq_cons.1 hdata).1
  unfold parseBool
  rw [if_neg hti, if_neg hfi]

/-- Splitting a concatenation at the first failure of `p`, when all of the
    left part satisfies `p` and the right part starts with a failure. -/
theorem takeWhile_dropWhile_append (p : α → Bool) (l₁ l₂ : List α)
    (h₁ : ∀ a ∈ l₁, p a = true) (h₂ : ∀ c cs, l₂ = c :: cs → p c = false) :
    (l₁ ++ l₂).takeWhile p = l₁ ∧ (l₁ ++ l₂).dropWhile p = l₂ := by
  induction l₁ with
  | nil =>
    simp only [List.nil_append]
    cases l₂ with
    | nil => simp
    | cons c cs =>
      rw [List.takeWhile_cons, List.dropWhile_cons]
      simp [h₂ c cs rfl]
  | cons a as ih =>
    have ha := h₁ a (List.mem_cons_self _ _)
    have ih' := ih fun x hx => h₁ x (List.mem_cons_of_mem _ hx)
    simp only [List.cons_append, List.takeWhile_cons, List.dropWhile_cons, ha]
    simp [ih'.1, ih'.2]

/-- A list containing a non-digit character does not parse as a numeral. -/
theorem parseNatChars_none_of_mem (l : List Char) (c : Char) (hc : c ∈ l)
    (h : isDigitChar c = false) : parseNatChars l = none := by
  unfold parseNatChars
  rw [if_neg]
  intro hcond
  rw [Bool.and_eq_true, List.all_eq_true] at hcond
  rw [hcond.2 c hc] at h
  exact absurd h (by simp)

/-- The dot is not a digit character. -/
theorem isDigitChar_dot : isDigitChar '.' = false := by decide

/-- The characters of the fractional digits are digit characters. -/
theorem frac_all_digit (frac : List ℕ) (h2 : ∀ d ∈ frac, d < 10) :
    (frac.map digitChar).all isDigitChar = true := by
  rw [List.all_eq_true]
  intro c hc
  rcases List.mem_map.1 hc with ⟨d, hd, rfl⟩
  exact isDigitChar_digitChar (h2 d hd)

/-- Reading the digit characters of a numeral back gives its value. -/
theorem digitsVal_map_natChars (n : ℕ) : digitsVal ((natChars n).map digitVal) = n := by
  unfold natChars
  rw [List.map_map]
  simp only [Function.comp_def]
  rw [List.map_congr_left (fun d hd => digitVal_digitChar (natDigits_lt n d hd))]
  simp only [List.map_id_fun', id]
  exact digitsVal_natDigits n

/-- Reading rendered fractional digits back gives them unchanged. -/
theorem map_digitVal_map_digitChar (frac : List ℕ) (h2 : ∀ d ∈ frac, d < 10) :
    (frac.map digitChar).map digitVal = frac := by
  rw [List.map_map]
  simp only [Function.comp_def]
  rw [List.map_congr_left (fun d hd => digitVal_digitChar (h2 d hd))]
  simp only [List.map_id_fun', id]

/-- The unsigned float parser inverts the unsigned float rendering. -/
theorem parseFloatCore_render (neg : Bool) (ip : ℕ) (frac : List ℕ) (h1 : frac ≠ [])
    (h2 : ∀ d ∈ frac, d < 10) :
    parseFloatCore neg (natChars ip ++ '.' :: frac.map digitChar) = some ⟨neg, ip, frac⟩ := by
  have hsplit := takeWhile_dropWhile_append isDigitChar (natChars ip)
    ('.' :: frac.map digitChar) (fun a ha => List.all_eq_true.1 (natChars_all_digit ip) a ha)
    (fun c cs hcc => by
      rw [List.cons_eq_cons] at hcc
      rw [← hcc.1]
      exact isDigitChar_dot)
  obtain ⟨d, cs, hshape, hd⟩ := natChars_shape ip
  have hfracne : (frac.map digitChar).isEmpty = false := by
    cases hf : frac with
    | nil => exact absurd hf h1
    | cons x xs => rfl
  unfold parseFloatCore
  rw [hsplit.1, hsplit.2]
  rw [if_neg (by rw [hshape]; simp)]
  rw [if_pos (by rw [List.head?_cons])]
  rw [List.tail_cons]
  rw [if_pos (by rw [Bool.and_eq_true, frac_all_digit frac h2, hfracne]; simp)]
  rw [digitsVal_map_natChars, map_digitVal_map_digitChar frac h2]

/-- Parsing the rendering of a well-formed float literal gives it back. -/
theorem parseFloatChars_floatChars (f : FloatLit) (h1 : f.frac ≠ [])
    (h2 : ∀ d ∈ f.frac, d < 10) : parseFloatChars (floatChars f) = some f := by
  cases hn : f.neg with
  | true =>
    have hfc : floatChars f = '-' :: (natChars f.ip ++ '.' :: f.frac.map digitChar) := by
      unfold floatChars
      rw [hn]
      rfl
    unfold parseFloatChars
    rw [hfc]
    rw [if_pos (by rw [List.head?_cons])]
    rw [List.tail_cons, parseFloatCore_render true f.ip f.frac h1 h2, ← hn]
  | false =>
    have hfc : floatChars f = natChars f.ip ++ '.' :: f.frac.map digitChar := by
      unfold floatChars
      rw [hn]
      rfl
    obtain ⟨d, cs, hshape, hd⟩ := natChars_shape f.ip
    have hhd : (floatChars f).head? ≠ some '-' := by
      rw [hfc, hshape]
      simp only [List.cons_append, List.head?_cons, ne_eq, Option.some.injEq]
      exact digitChar_ne_dash hd
    unfold parseFloatChars
    rw [if_neg hhd, hfc, parseFloatCore_render false f.ip f.frac h1 h2]
    rw [← hn]

/-- The rendering of an integer never parses as a boolean. -/
theorem parseBool_intChars (i : ℤ) : parseBool ⟨intChars i⟩ = none := by
  by_cases hi : i < 0
  · refine parseBool_none_of_head (intChars i) '-' (natChars i.natAbs) ?_ (Or.inr rfl)
    unfold intChars
    rw [if_pos hi]
  · obtain ⟨d, cs, hshape, hd⟩ := natChars_shape i.natAbs
    refine parseBool_none_of_head (intChars i) (digitChar d) cs ?_
      (Or.inl (isDigitChar_digitChar hd))
    unfold intChars
    rw [if_neg hi]
    exact hshape

/-- The rendering of a float literal never parses as a boolean. -/
theorem parseBool_floatChars (f : FloatLit) : parseBool ⟨floatChars f⟩ = none := by
  obtain ⟨d, cs, hshape, hd⟩ := natChars_shape f.ip
  cases hn : f.neg with
  | true =>
    refine parseBool_none_of_head (floatChars f) '-'
      (natChars f.ip ++ '.' :: f.frac.map digitChar) ?_ (Or.inr rfl)
    unfold floatChars
    rw [hn]
    rfl
  | false =>
    refine parseBool_none_of_head (floatChars f) (digitChar d)
      (cs ++ '.' :: f.frac.map digitChar) ?_ (Or.inl (isDigitChar_digitChar hd))
    unfold floatChars
    rw [hn, hshape]
    rfl

/-- The rendering of a float literal never parses as an integer: the dot is
    not a digit. -/
theorem parseIntChars_floatChars (f : FloatLit) : parseIntChars (floatChars f) = none := by
  have hdotmem : '.' ∈ natChars f.ip ++ '.' :: f.frac.map digitChar :=
    List.mem_append.2 (Or.inr (List.mem_cons_self _ _))
  cases hn : f.neg with
  | true =>
    have hfc : floatChars f = '-' :: (natChars f.ip ++ '.' :: f.frac.map digitChar) := by
      unfold floatChars
      rw [hn]
      rfl
    unfold parseIntChars
    rw [hfc]
    rw [if_pos (by rw [List.head?_cons])]
    rw [List.tail_cons, parseNatChars_none_of_mem _ '.' hdotmem isDigitChar_dot]
    rfl
  | false =>
    have hfc : floatChars f = natChars f.ip ++ '.' :: f.frac.map digitChar := by
      unfold floatChars
      rw [hn]
      rfl
    obtain ⟨d, cs, hshape, hd⟩ := natChars_shape f.ip
    have hhd : (floatChars f).head? ≠ some '-' := by
      rw [hfc, hshape]
      simp only [List.cons_append, List.head?_cons, ne_eq, Option.some.injEq]
      exact digitChar_ne_dash hd
    unfold parseIntChars
    rw [if_neg hhd, hfc, parseNatChars_none_of_mem _ '.' hdotmem isDigitChar_dot]
    rfl

/-- The lexicographic character order is irreflexive. -/
theorem charsLt_irrefl (l : List Char) : charsLt l l = false := by
  induction l with
  | nil => rfl
  | cons a as ih =>
    unfold charsLt
    simp [ih]

/-- The value comparator is irreflexive. -/
theorem valueLT_irrefl (v : Value) : valueLT v v = false := by
  cases v with
  | vBool b => exact charsLt_irrefl _
  | vInt i => simp [valueLT]
  | vFloat f => simp [valueLT]
  | vStr s => exact charsLt_irrefl _

/-- Records whose sort keys are both `v` never compare strictly. -/
theorem rowLt_eq_false_of_keys (i : ℕ) (desc : Bool) (v : Value) (a b : List Value)
    (ha : keyAt i a = v) (hb : keyAt i b = v) : rowLt i desc a b = false := by
  unfold rowLt
  cases desc
  · rw [if_neg (by simp), ha, hb]
    exact valueLT_irrefl v
  · rw [if_pos rfl, ha, hb]
    exact valueLT_irrefl v

/-- Shared consequences of sorting the rows: length, permutation and
    stability (every key class keeps its input subsequence). -/
theorem sortedRows_props (C : Collection) (f : String) (desc : Bool) :
    (sortedRows C f desc).length = C.rows.length ∧
    (sortedRows C f desc).Perm C.rows ∧
    ∀ v : Value,
      (sortedRows C f desc).filter (fun r => decide (keyAt (C.names.indexOf f) r = v)) =
        C.rows.filter (fun r => decide (keyAt (C.names.indexOf f) r = v)) := by
  refine ⟨insSort_length _ _, insSort_perm _ _, fun v => ?_⟩
  apply insSort_filter
  intro a b ha hb
  exact rowLt_eq_false_of_keys _ _ v a b (of_decide_eq_true ha) (of_decide_eq_true hb)

/-- The sort of C3 keeps the schema, permutes the rows, preserves the length
    and is stable; the input collection itself is a value and is untouched. -/
theorem sortSlice_perm_stable (C : Collection) (f : String) (dir : Option String)
    (C' : Collection) (_hf : f ∈ C.names) (h : sortSlice C f dir = Except.ok C') :
    C'.names = C.names ∧ C'.kinds = C.kinds ∧ C'.rows.length = C.rows.length ∧
    C'.rows.Perm C.rows ∧
    ∀ v : Value,
      C'.rows.filter (fun r => decide (keyAt (C.names.indexOf f) r = v)) =
        C.rows.filter (fun r => decide (keyAt (C.names.indexOf f) r = v)) := by
  have hsplit : ∃ desc : Bool, C' = ⟨C.names, C.kinds, sortedRows C f desc⟩ := by
    cases dir with
    | none =>
      simp only [sortSlice, Except.ok.injEq] at h
      exact ⟨false, h.symm⟩
    | some d =>
      simp only [sortSlice] at h
      by_cases h1 : d = "asc"
      · rw [if_pos h1] at h
        simp only [Except.ok.injEq] at h
        exact ⟨false, h.symm⟩
      · rw [if_neg h1] at h
        by_cases h2 : d = "dsc"
        · rw [if_pos h2] at h
          simp only [Except.ok.injEq] at h
          exact ⟨true, h.symm⟩
        · rw [if_neg h2] at h
          exact absurd h (by simp)
  obtain ⟨desc, rfl⟩ := hsplit
  obtain ⟨hlen, hperm, hfil⟩ := sortedRows_props C f desc
  exact ⟨rfl, rfl, hlen, hperm, hfil⟩

/-- Witness for the sort theorem at a concrete collection and field. -/
theorem sortSlice_perm_stable_witness :
    ("n" ∈ (Collection.mk ["n"] [Kind.kInt]
        [[Value.vInt 2], [Value.vInt 1]]).names) ∧
    (sortSlice (Collection.mk ["n"] [Kind.kInt] [[Value.vInt 2], [Value.vInt 1]]) "n" none =
      Except.ok (Collection.mk ["n"] [Kind.kInt] [[Value.vInt 1], [Value.vInt 2]])) ∧
    ((Collection.mk ["n"] [Kind.kInt] [[Value.vInt 1], [Value.vInt 2]]).rows.Perm
      (Collection.mk ["n"] [Kind.kInt] [[Value.vInt 2], [Value.vInt 1]]).rows) := by
  have hm : "n" ∈ (Collection.mk ["n"] [Kind.kInt]
      [[Value.vInt 2], [Value.vInt 1]]).names := List.mem_cons_self _ _
  have hok : sortSlice (Collection.mk ["n"] [Kind.kInt] [[Value.vInt 2], [Value.vInt 1]])
      "n" none = Except.ok (Collection.mk ["n"] [Kind.kInt]
        [[Value.vInt 1], [Value.vInt 2]]) := rfl
  exact ⟨hm, hok,
    (sortSlice_perm_stable _ "n" none _ hm hok).2.2.2.1⟩

/-- The direction of C7: omitted means ascending, and a direction other than
    `asc` and `dsc` is a call error. -/
theorem sortSlice_direction_spec (C : Collection) (f : String) :
    sortSlice C f none = sortSlice C f (some "asc") ∧
    ∀ d : String, d ≠ "asc" → d ≠ "dsc" →
      sortSlice C f (some d) = Except.error ("invalid direction: " ++ d) := by
  constructor
  · simp [sortSlice]
  · intro d h1 h2
    simp only [sortSlice]
    rw [if_neg h1, if_neg h2]

/-- Witness for the direction theorem at a concrete bad direction. -/
theorem sortSlice_direction_spec_witness :
    sortSlice (Collection.mk [] [] []) "f" (some "up") =
      Except.error ("invalid direction: " ++ "up") :=
  (sortSlice_direction_spec (Collection.mk [] [] []) "f").2 "up" (by decide) (by decide)

/-- The `head` of C5: with a non-negative count it keeps the first
    `min(n, len)` elements (all of them when `n` exceeds the length), a
    negative count is an error, and an omitted count means one element. -/
theorem head_spec {α : Type} (C : List α) (n : ℤ) :
    (0 ≤ n →
      head C (some n) = Except.ok (C.take n.toNat) ∧
      (C.take n.toNat).length = min n.toNat C.length ∧
      ((C.length : ℤ) < n → C.take n.toNat = C)) ∧
    (n < 0 → head C (some n) = Except.error "head: negative count") ∧
    head C none = head C (some 1) := by
  refine ⟨fun h0 => ⟨?_, List.length_take _ _,
    fun hl => List.take_of_length_le (by omega)⟩, fun hneg => ?_, rfl⟩
  · unfold head
    simp only [Option.getD_some]
    rw [if_neg (by omega)]
  · unfold head
    simp only [Option.getD_some]
    rw [if_pos hneg]

/-- Witness for the `head` theorem at concrete inputs. -/
theorem head_spec_witness :
    head ([10, 20, 30] : List ℕ) (some 2) = Except.ok [10, 20] ∧
    head ([10, 20, 30] : List ℕ) (some (-1)) = Except.error "head: negative count" := by
  have h2 := (head_spec ([10, 20, 30] : List ℕ) 2).1 (by decide)
  have hneg := (head_spec ([10, 20, 30] : List ℕ) (-1)).2.1 (by decide)
  refine ⟨?_, hneg⟩
  rw [h2.1]
  rfl

/-- The `rows` of C6: the result is exactly the records at the in-range
    indices, in the order the indices are given, with out-of-range indices
    silently skipped; and on a two-element collection the indices 0, 1, 2
    select the records 0 and 1 only. -/
theorem rows_spec {α : Type} (d : α) (C : List α) (idxs : List ℤ) :
    rows C idxs =
      (idxs.filter (fun i => decide (0 ≤ i) && decide (i.toNat < C.length))).map
        (fun i => C.getD i.toNat d) ∧
    rows (["a", "b"] : List String) [0, 1, 2] = ["a", "b"] := by
  refine ⟨?_, by decide⟩
  induction idxs with
  | nil => rfl
  | cons i t ih =>
    unfold rows at ih ⊢
    rw [List.filter_cons]
    by_cases h0 : i < 0
    · rw [@List.filterMap_cons_none ℤ _ (fun j => if j < 0 then none else C.get? j.toNat)
        i t (by
          show (if i < 0 then none else C.get? i.toNat) = none
          rw [if_pos h0])]
      have hc : (decide ((0:ℤ) ≤ i) && decide (i.toNat < C.length)) = false := by
        rw [decide_eq_false (by omega : ¬ (0:ℤ) ≤ i), Bool.false_and]
      rw [hc]
      simpa using ih
    · by_cases hlt : i.toNat < C.length
      · rw [@List.filterMap_cons_some ℤ _ (fun j => if j < 0 then none else C.get? j.toNat)
          i t (C.get ⟨i.toNat, hlt⟩) (by
            show (if i < 0 then none else C.get? i.toNat) = some (C.get ⟨i.toNat, hlt⟩)
            rw [if_neg h0, List.get?_eq_get hlt])]
        have hc : (decide ((0:ℤ) ≤ i) && decide (i.toNat < C.length)) = true := by
          rw [decide_eq_true (by omega : (0:ℤ) ≤ i), decide_eq_true hlt, Bool.and_self]
        rw [hc]
        simp only [if_true, List.map_cons]
        rw [ih]
        congr 1
        simp [List.getD_eq_getElem?_getD, List.getElem?_eq_getElem hlt, List.get_eq_getElem]
      · rw [@List.filterMap_cons_none ℤ _ (fun j => if j < 0 then none else C.get? j.toNat)
          i t (by
            show (if i < 0 then none else C.get? i.toNat) = none
            rw [if_neg h0]
            exact List.get?_eq_none.2 (by omega))]
        have hc : (decide ((0:ℤ) ≤ i) && decide (i.toNat < C.length)) = false := by
          rw [decide_eq_false hlt, Bool.and_false]
        rw [hc]
        simpa using ih

/-- A non-empty-and-digits well-formedness certificate for a float value. -/
theorem valueWFb_float (f : FloatLit) (hv : valueWFb (Value.vFloat f) = true) :
    f.frac ≠ [] ∧ ∀ d ∈ f.frac, d < 10 := by
  unfold valueWFb at hv
  rw [Bool.and_eq_true] at hv
  obtain ⟨h1, h2⟩ := hv
  constructor
  · intro he
    rw [he] at h1
    exact absurd h1 (by decide)
  · intro d hd
    rw [List.all_eq_true] at h2
    exact of_decide_eq_true (h2 d hd)

/-- Parsing a rendered cell under the value's own kind gives the value back. -/
theorem parseCell_kindOf_render (v : Value) (hv : valueWFb v = true) :
    parseCell v.kindOf (renderValue v) = some v := by
  cases v with
  | vBool b => cases b <;> rfl
  | vInt i =>
    show (parseIntChars (String.data ⟨intChars i⟩)).map Value.vInt = some (Value.vInt i)
    rw [show String.data ⟨intChars i⟩ = intChars i from rfl, parseIntChars_intChars]
    rfl
  | vFloat f =>
    obtain ⟨h1, h2⟩ := valueWFb_float f hv
    show (parseFloatChars (String.data ⟨floatChars f⟩)).map Value.vFloat =
      some (Value.vFloat f)
    rw [show String.data ⟨floatChars f⟩ = floatChars f from rfl,
      parseFloatChars_floatChars f h1 h2]
    rfl
  | vStr s => rfl

/-- Kind inference recovers a rendered value's kind, provided string values
    do not themselves look like booleans, integers or floats. -/
theorem inferKind_render (v : Value) (hv : valueWFb v = true)
    (hs : ∀ s, v = Value.vStr s → (parseBool s).isNone = true ∧
      (parseIntChars s.data).isNone = true ∧ (parseFloatChars s.data).isNone = true) :
    inferKind (renderValue v) = v.kindOf := by
  cases v with
  | vBool b => cases b <;> rfl
  | vInt i =>
    unfold inferKind
    rw [show renderValue (Value.vInt i) = ⟨intChars i⟩ from rfl]
    rw [parseBool_intChars i, if_neg (by simp)]
    rw [show String.data ⟨intChars i⟩ = intChars i from rfl, parseIntChars_intChars]
    rfl
  | vFloat f =>
    obtain ⟨h1, h2⟩ := valueWFb_float f hv
    unfold inferKind
    rw [show renderValue (Value.vFloat f) = ⟨floatChars f⟩ from rfl]
    rw [parseBool_floatChars f, if_neg (by simp)]
    rw [show String.data ⟨floatChars f⟩ = floatChars f from rfl]
    rw [parseIntChars_floatChars f, if_neg (by simp)]
    rw [parseFloatChars_floatChars f h1 h2]
    rfl
  | vStr s =>
    obtain ⟨hb, hi, hf⟩ := hs s rfl
    unfold inferKind
    rw [show renderValue (Value.vStr s) = s from rfl]
    rw [Option.isNone_iff_eq_none] at hb hi hf
    rw [hb, if_neg (by simp), hi, if_neg (by simp), hf, if_neg (by simp)]
    rfl

/-- A row matching the kinds has as many cells as there are kinds. -/
theorem rowWF_length (ks : List Kind) : ∀ r : List Value, rowWF ks r = true →
    r.length = ks.length := by
  induction ks with
  | nil =>
    intro r h
    cases r with
    | nil => rfl
    | cons v vs => exact absurd h (by simp [rowWF])
  | cons k ks ih =>
    intro r h
    cases r with
    | nil => exact absurd h (by simp [rowWF])
    | cons v vs =>
      unfold rowWF at h
      rw [Bool.and_eq_true, Bool.and_eq_true] at h
      simp only [List.length_cons, ih vs h.2]

/-- Parsing a rendered row under its own kinds gives the row back. -/
theorem parseRow_render (ks : List Kind) : ∀ r : List Value, rowWF ks r = true →
    parseRow ks (r.map renderValue) = some r := by
  induction ks with
  | nil =>
    intro r h
    cases r with
    | nil => rfl
    | cons v vs => exact absurd h (by simp [rowWF])
  | cons k ks ih =>
    intro r h
    cases r with
    | nil => exact absurd h (by simp [rowWF])
    | cons v vs =>
      unfold rowWF at h
      rw [Bool.and_eq_true, Bool.and_eq_true] at h
      obtain ⟨⟨hk, hwf⟩, ht⟩ := h
      have hk' : v.kindOf = k := eq_of_beq hk
      subst hk'
      rw [List.map_cons]
      unfold parseRow
      rw [parseCell_kindOf_render v hwf, ih vs ht]

/-- Kind inference over a rendered row recovers its kinds, provided no string
    cell looks like a boolean, an integer or a float. -/
theorem inferKinds_render (ks : List Kind) : ∀ r : List Value, rowWF ks r = true →
    rowStrOK r = true → (r.map renderValue).map inferKind = ks := by
  induction ks with
  | nil =>
    intro r h _
    cases r with
    | nil => rfl
    | cons v vs => exact absurd h (by simp [rowWF])
  | cons k ks ih =>
    intro r h hs
    cases r with
    | nil => exact absurd h (by simp [rowWF])
    | cons v vs =>
      unfold rowWF at h
      rw [Bool.and_eq_true, Bool.and_eq_true] at h
      obtain ⟨⟨hk, hwf⟩, ht⟩ := h
      unfold rowStrOK at hs
      rw [List.all_cons, Bool.and_eq_true] at hs
      obtain ⟨hsv, hst⟩ := hs
      rw [List.map_cons, List.map_cons]
      have hk' : v.kindOf = k := eq_of_beq hk
      rw [inferKind_render v hwf ?_, hk', ih vs ht hst]
      intro s hvs
      subst hvs
      rw [Bool.and_eq_true, Bool.and_eq_true] at hsv
      exact ⟨hsv.1.1, hsv.1.2, hsv.2⟩

/-- Parsing every rendered row under the shared kinds gives the rows back. -/
theorem parseRows_render (ks : List Kind) (rs : List (List Value))
    (h : ∀ r ∈ rs, rowWF ks r = true) :
    parseRows ks (rs.map (fun r => r.map renderValue)) = some rs := by
  induction rs with
  | nil => rfl
  | cons r rs ih =>
    rw [List.map_cons]
    unfold parseRows
    rw [parseRow_render ks r (h r (List.mem_cons_self _ _)),
      ih fun x hx => h x (List.mem_cons_of_mem _ hx)]

/-- The row-0 requirement implies pairwise distinct names. -/
theorem namesOK_nodup (l : List String) (h : namesOK l = true) : l.Nodup := by
  induction l with
  | nil => exact List.nodup_nil
  | cons s rest ih =>
    unfold namesOK at h
    rw [Bool.and_eq_true, Bool.and_eq_true] at h
    obtain ⟨⟨-, hmem⟩, ht⟩ := h
    rw [List.nodup_cons]
    refine ⟨fun hc => ?_, ih ht⟩
    rw [decide_eq_true hc] at hmem
    exact absurd hmem (by decide)

/-- Sanitisation leaves a valid identifier unchanged. -/
theorem sanitizeName_ident (s : String) (hv : validIdentb s = true) : sanitizeName s = s := by
  unfold validIdentb at hv
  rw [Bool.and_eq_true, Bool.and_eq_true] at hv
  obtain ⟨⟨-, hds⟩, hall⟩ := hv
  have hds' : startsWithDigit s.data = false := by
    cases hsd : startsWithDigit s.data
    · rfl
    · rw [hsd] at hds
      exact absurd hds (by decide)
  unfold sanitizeName
  rw [if_neg (by rw [hds']; simp)]
  unfold sanitizeChars
  rw [List.map_congr_left fun c hc => if_pos (List.all_eq_true.1 hall c hc)]
  simp only [List.map_id_fun', id]

/-- Disambiguation is the identity on a duplicate-free list avoiding the
    taken names. -/
theorem uniquify_id (l : List String) : ∀ taken : List String,
    (∀ s ∈ l, s ∉ taken) → l.Nodup → uniquify taken l = l := by
  induction l with
  | nil => intro taken _ _; rfl
  | cons s rest ih =>
    intro taken htk hnd
    have hfree : s ∉ taken := htk s (List.mem_cons_self _ _)
    have hfr : freshen taken (taken.length + 1) s = s := by
      unfold freshen
      rw [if_neg hfree]
    rw [List.nodup_cons] at hnd
    unfold uniquify
    rw [hfr]
    congr 1
    apply ih (taken ++ [s])
    · intro x hx hmem
      rw [List.mem_append, List.mem_singleton] at hmem
      rcases hmem with h | rfl
      · exact htk x (List.mem_cons_of_mem _ hx) h
      · exact hnd.1 hx
    · exact hnd.2

/-- The derived field names equal the input names when those are unique valid
    identifiers. -/
theorem sanitizeNames_ident (names : List String) (hnd : names.Nodup)
    (hv : names.all validIdentb = true) : sanitizeNames names = names := by
  unfold sanitizeNames
  rw [List.map_congr_left fun s hs => sanitizeName_ident s (List.all_eq_true.1 hv s hs)]
  simp only [List.map_id_fun', id]
  exact uniquify_id names [] (fun s _ h => absurd h (List.not_mem_nil s)) hnd

/-- Round trip of C2 under the forced restrictions: a non-empty well-formed
    collection with non-empty, unique field names, whose first record's
    string cells do not themselves parse as booleans, integers or floats, is
    reproduced by `totable` after `table` rendering — kinds and values
    exactly, names up to identifier sanitisation — and the names too are
    exact when they are already valid identifiers. -/
theorem totable_table_roundtrip (C : Collection) (r1 : List Value)
    (rest : List (List Value)) (hwf : C.WFb = true) (hrows : C.rows = r1 :: rest)
    (hstr : rowStrOK r1 = true) (hnames : namesOK C.names = true) :
    toTable (tableGrid C) = Except.ok ⟨sanitizeNames C.names, C.kinds, C.rows⟩ ∧
    (C.names.all validIdentb = true → sanitizeNames C.names = C.names) := by
  refine ⟨?_, fun hv => sanitizeNames_ident C.names (namesOK_nodup C.names hnames) hv⟩
  unfold Collection.WFb at hwf
  rw [Bool.and_eq_true] at hwf
  obtain ⟨hlen, hall⟩ := hwf
  have hlen' : C.kinds.length = C.names.length := eq_of_beq hlen
  rw [List.all_eq_true] at hall
  have hr1 : rowWF C.kinds r1 = true := hall r1 (by rw [hrows]; exact List.mem_cons_self _ _)
  unfold tableGrid
  rw [hrows, List.map_cons]
  simp only [toTable]
  rw [if_pos hnames]
  rw [if_pos ?wcheck]
  case wcheck =>
    rw [List.all_eq_true]
    intro rr hrr
    rw [← List.map_cons, ← hrows] at hrr
    rcases List.mem_map.1 hrr with ⟨r, hr, rfl⟩
    rw [List.length_map, rowWF_length C.kinds r (hall r hr), hlen']
    exact beq_self_eq_true _
  rw [inferKinds_render C.kinds r1 hr1 hstr]
  rw [← List.map_cons, ← hrows,
    parseRows_render C.kinds C.rows fun r hr => hall r hr]

/-- The round-trip claim fails without the restrictions: on the collection
    with a single string column holding `1` and then `abc`, `totable` infers
    an integer column from the first data row and then fails to parse `abc`,
    so no collection at all is reproduced. -/
theorem totable_table_roundtrip_fails :
    ¬ ∃ C' : Collection, toTable (tableGrid gridTrap) = Except.ok C' ∧
      C'.rows = gridTrap.rows := by
  rintro ⟨C', h, -⟩
  rw [show toTable (tableGrid gridTrap) =
    Except.error "totable: cell does not parse under the inferred column kind" from rfl] at h
  exact absurd h (by simp)

/-- Witness for the round-trip theorem on a concrete four-kind collection
    whose names are valid identifiers, so it is reproduced exactly. -/
theorem totable_table_roundtrip_witness :
    roundTripSample.WFb = true ∧ namesOK roundTripSample.names = true ∧
    toTable (tableGrid roundTripSample) =
      Except.ok ⟨roundTripSample.names, roundTripSample.kinds, roundTripSample.rows⟩ := by
  have h := totable_table_roundtrip roundTripSample
    [Value.vStr "abc", Value.vInt (-12), Value.vFloat ⟨false, 1, [5]⟩, Value.vBool true]
    [[Value.vStr "zz", Value.vInt 7, Value.vFloat ⟨true, 0, [2, 5]⟩, Value.vBool false]]
    (by decide) rfl (by decide) (by decide)
  refine ⟨by decide, by decide, ?_⟩
  rw [h.1, h.2 (by decide)]

/-- Appending a fresh binding to an association list makes it found. -/
theorem lookup_append_self (l : List (String × Fn)) (k : String) (v : Fn)
    (h : l.lookup k = none) : (l ++ [(k, v)]).lookup k = some v := by
  induction l with
  | nil => simp [List.lookup]
  | cons x xs ih =>
    rcases x with ⟨a, b⟩
    simp only [List.cons_append, List.lookup_cons] at h ⊢
    rcases hk : (k == a) with _ | _
    · simp only [hk] at h ⊢
      exact ih h
    · simp [hk] at h

/-- The duplicate-name behaviour of C4: `AddCustomFn` errors exactly when the
    name is already mapped, an error leaves the config untouched, and success
    registers the function under the name. -/
theorem AddCustomFn_duplicate_spec (c : Config) (fn : Fn) (name helpText : String) :
    ((c.AddCustomFn fn name helpText).2.isSome = (c.funcMap.lookup name).isSome) ∧
    ((c.funcMap.lookup name).isSome = true → (c.AddCustomFn fn name helpText).1 = c) ∧
    ((c.funcMap.lookup name).isSome = false →
      (c.AddCustomFn fn name helpText).1.funcMap.lookup name = some fn) := by
  unfold Config.AddCustomFn
  by_cases h : (c.funcMap.lookup name).isSome = true
  · rw [if_pos h, h]
    exact ⟨rfl, fun _ => rfl, fun hf => absurd hf (by simp)⟩
  · have h' : (c.funcMap.lookup name).isSome = false := by
      cases hh : (c.funcMap.lookup name).isSome
      · rfl
      · exact absurd hh h
    have hnone : c.funcMap.lookup name = none := by
      cases ho : c.funcMap.lookup name
      · rfl
      · rw [ho] at h'
        exact absurd h' (by simp)
    rw [if_neg h, h']
    refine ⟨?_, fun hcontra => absurd hcontra (by simp), fun _ => ?_⟩
    · by_cases ht : trimRightSpace helpText = ""
      · rw [if_pos ht]
        rfl
      · rw [if_neg ht]
        rfl
    · by_cases ht : trimRightSpace helpText = ""
      · rw [if_pos ht]
        exact lookup_append_self c.funcMap name fn hnone
      · rw [if_neg ht]
        exact lookup_append_self c.funcMap name fn hnone

/-- Witness for the duplicate-name theorem at concrete configs. -/
theorem AddCustomFn_duplicate_spec_witness :
    ((Config.mk [("f", Fn.custom 0)] []).AddCustomFn (Fn.custom 1) "f" "h").1 =
      Config.mk [("f", Fn.custom 0)] [] ∧
    ((Config.mk [] []).AddCustomFn (Fn.custom 1) "g" "h").1.funcMap.lookup "g" =
      some (Fn.custom 1) := by
  have h1 := AddCustomFn_duplicate_spec (Config.mk [("f", Fn.custom 0)] []) (Fn.custom 1) "f" "h"
  have h2 := AddCustomFn_duplicate_spec (Config.mk [] []) (Fn.custom 1) "g" "h"
  exact ⟨h1.2.1 (by decide), h2.2.2 (by decide)⟩

/-- Each built-in option is an instance of the shared registration shape. -/
theorem applyBOpt_optEnable (b : BOpt) (c : Config) :
    applyBOpt b c = optEnable (bName b) (bFn b) (bEntry b).help (bEntry b).index c := by
  cases b <;> rfl

/-- The idempotence of C8: when an operation's name is already in the
    function map, its `Opt*` function changes nothing — neither the function
    map nor the help list — so no help text is registered twice. -/
theorem opt_idempotent (b : BOpt) (c : Config)
    (h : (c.funcMap.lookup (bName b)).isSome = true) : applyBOpt b c = c := by
  rw [applyBOpt_optEnable]
  unfold optEnable
  rw [if_pos h]

/-- Witness for the idempotence theorem: re-enabling `filter`. -/
theorem opt_idempotent_witness :
    (((OptFilter (Config.mk [] [])).funcMap.lookup (bName BOpt.filter)).isSome = true) ∧
    applyBOpt BOpt.filter (OptFilter (Config.mk [] [])) = OptFilter (Config.mk [] []) := by
  have h : ((OptFilter (Config.mk [] [])).funcMap.lookup (bName BOpt.filter)).isSome = true := by
    rfl
  exact ⟨h, opt_idempotent BOpt.filter _ h⟩

/-- The whitespace-help behaviour of C9: with a fresh name, `AddCustomFn`
    succeeds and registers the function; help that trims to empty records no
    help entry, so the name is missing from `TemplateFunctionNames` and
    `TemplateFunctionHelpSingle` reports it undefined; non-whitespace help is
    stored right-trimmed with exactly one newline appended. -/
theorem AddCustomFn_whitespace_help (c : Config) (fn : Fn) (name helpText : String)
    (hm : c.funcMap.lookup name = none)
    (hh : ∀ e ∈ c.funcHelp, e.name ≠ name) :
    ((c.AddCustomFn fn name helpText).2 = none ∧
      (c.AddCustomFn fn name helpText).1.funcMap.lookup name = some fn) ∧
    (trimRightSpace helpText = "" →
      (c.AddCustomFn fn name helpText).1.funcHelp = c.funcHelp ∧
      name ∉ TemplateFunctionNames (some (c.AddCustomFn fn name helpText).1) ∧
      TemplateFunctionHelpSingle name (some (c.AddCustomFn fn name helpText).1) =
        Except.error (name ++ " is not defined")) ∧
    (trimRightSpace helpText ≠ "" →
      (c.AddCustomFn fn name helpText).1.funcHelp =
        c.funcHelp ++ [⟨name, trimRightSpace helpText ++ "\n", helpIndexCount⟩]) := by
  have hms : (c.funcMap.lookup name).isSome = false := by
    rw [hm]
    rfl
  unfold Config.AddCustomFn
  rw [if_neg (by rw [hms]; simp)]
  by_cases ht : trimRightSpace helpText = ""
  · rw [if_pos ht]
    refine ⟨⟨rfl, lookup_append_self _ _ _ hm⟩,
      fun _ => ⟨rfl, ?_, ?_⟩, fun hcontra => absurd ht hcontra⟩
    · unfold TemplateFunctionNames getHelpers
      intro hmem
      rcases List.mem_map.1 hmem with ⟨e, he, hn⟩
      exact hh e he hn
    · unfold TemplateFunctionHelpSingle getHelpers
      rw [List.find?_eq_none.2 (fun e he => by simp [hh e he])]
  · rw [if_neg ht]
    exact ⟨⟨rfl, lookup_append_self _ _ _ hm⟩, fun hcontra => absurd hcontra ht,
      fun _ => rfl⟩

/-- Witness for the whitespace-help theorem: whitespace-only help records
    nothing; `" x "` is stored as `" x\n"`. -/
theorem AddCustomFn_whitespace_help_witness :
    ((Config.mk [] []).AddCustomFn (Fn.custom 2) "g" "  \n").1.funcHelp = [] ∧
    ((Config.mk [] []).AddCustomFn (Fn.custom 3) "g" " x ").1.funcHelp =
      [⟨"g", trimRightSpace " x " ++ "\n", helpIndexCount⟩] := by
  have h1 := AddCustomFn_whitespace_help (Config.mk [] []) (Fn.custom 2) "g" "  \n" rfl
    (by simp)
  have h2 := AddCustomFn_whitespace_help (Config.mk [] []) (Fn.custom 3) "g" " x " rfl
    (by simp)
  exact ⟨(h1.2.1 (by decide)).1, h2.2.2 (by decide)⟩

/-- The empty-source behaviour of C10: `CreateTemplate` rejects an empty
    template source for every name and config (nil included) and otherwise
    hands name, function map and source to the external template parser. -/
theorem CreateTemplate_empty_source (name : String) (cfg : Option Config) :
    CreateTemplate name "" cfg = Except.error ("template " ++ name ++ " contains no source") ∧
    ∀ src : String, src ≠ "" →
      CreateTemplate name src cfg = Except.ok (TmplResult.parsed name (getFuncMap cfg) src) := by
  constructor
  · unfold CreateTemplate
    rw [if_pos rfl]
  · intro src hs
    unfold CreateTemplate
    rw [if_neg hs]

/-- Witness for the empty-source theorem for both a nil and a concrete
    config. -/
theorem CreateTemplate_empty_source_witness :
    CreateTemplate "t" "" none = Except.error ("template " ++ "t" ++ " contains no source") ∧
    CreateTemplate "t" "x" (some (Config.mk [] [])) =
      Except.ok (TmplResult.parsed "t" (getFuncMap (some (Config.mk [] []))) "x") :=
  ⟨(CreateTemplate_empty_source "t" none).1,
   (CreateTemplate_empty_source "t" (some (Config.mk [] []))).2 "x" (by decide)⟩

/-- Distinct built-in options register distinct names. -/
theorem bName_inj : ∀ x y : BOpt, bName x = bName y → x = y := by decide

/-- Distinct built-in options carry distinct priorities. -/
theorem bIndex_inj : ∀ x y : BOpt, bIndex x = bIndex y → x = y := by decide

/-- The priority stored in the help entry is the option's priority. -/
theorem bEntry_index (b : BOpt) : (bEntry b).index = bIndex b := by
  cases b <;> rfl

/-- The name registered by an option is found in a built config exactly when
    the option has been folded in. -/
theorem lookup_configOf (acc : List BOpt) (b : BOpt) :
    ((configOf acc).funcMap.lookup (bName b)).isSome = true ↔ b ∈ acc := by
  induction acc with
  | nil => simp [configOf, List.lookup]
  | cons a t ih =>
    simp only [configOf, List.map_cons, List.lookup_cons] at ih ⊢
    rcases hk : (bName b == bName a) with _ | _
    · have hba : b ≠ a := by
        intro he
        rw [he] at hk
        simp at hk
      simp only [hk]
      rw [ih]
      simp [List.mem_cons, hba]
    · have hba : b = a := bName_inj b a (eq_of_beq hk)
      simp [hk, hba, List.mem_cons]

/-- Applying a built-in option to a built config accumulates it. -/
theorem applyBOpt_configOf (b : BOpt) (acc : List BOpt) :
    applyBOpt b (configOf acc) = configOf (addB acc b) := by
  rw [applyBOpt_optEnable]
  unfold optEnable addB
  by_cases hmem : b ∈ acc
  · rw [if_pos ((lookup_configOf acc b).2 hmem), if_pos hmem]
  · rw [if_neg (fun hc => hmem ((lookup_configOf acc b).1 hc)), if_neg hmem]
    unfold configOf
    simp only [List.map_append, List.map_cons, List.map_nil]
    rfl

/-- A fold of built-in options over a built config builds the accumulated
    config. -/
theorem foldl_applyBOpt (l : List BOpt) : ∀ acc : List BOpt,
    l.foldl (fun c b => applyBOpt b c) (configOf acc) = configOf (l.foldl addB acc) := by
  induction l with
  | nil => intro acc; rfl
  | cons b t ih =>
    intro acc
    rw [List.foldl_cons, List.foldl_cons, applyBOpt_configOf, ih]

/-- Membership in the deduplicating fold. -/
theorem mem_foldl_addB (l : List BOpt) : ∀ acc b, b ∈ l.foldl addB acc ↔ b ∈ acc ∨ b ∈ l := by
  induction l with
  | nil => simp
  | cons a t ih =>
    intro acc b
    rw [List.foldl_cons, ih]
    unfold addB
    by_cases hm : a ∈ acc
    · rw [if_pos hm]
      constructor
      · rintro (h | h)
        · exact Or.inl h
        · exact Or.inr (List.mem_cons_of_mem _ h)
      · rintro (h | h)
        · exact Or.inl h
        · rcases List.mem_cons.1 h with rfl | h
          · exact Or.inl hm
          · exact Or.inr h
    · rw [if_neg hm]
      simp only [List.mem_append, List.mem_cons, List.mem_singleton]
      tauto

/-- The deduplicating fold keeps the accumulator duplicate-free. -/
theorem nodup_foldl_addB (l : List BOpt) : ∀ acc, acc.Nodup → (l.foldl addB acc).Nodup := by
  induction l with
  | nil => intro acc h; exact h
  | cons a t ih =>
    intro acc h
    rw [List.foldl_cons]
    apply ih
    unfold addB
    by_cases hm : a ∈ acc
    · rw [if_pos hm]
      exact h
    · rw [if_neg hm]
      rw [List.nodup_append]
      refine ⟨h, List.nodup_singleton a, ?_⟩
      intro x hx hxa
      rw [List.mem_singleton] at hxa
      exact hm (hxa ▸ hx)

/-- Permuted registration lists deduplicate to permuted option lists. -/
theorem dedupB_perm (l₁ l₂ : List BOpt) (h : l₁.Perm l₂) : (dedupB l₁).Perm (dedupB l₂) := by
  apply (List.perm_ext_iff_of_nodup (nodup_foldl_addB l₁ [] List.nodup_nil)
    (nodup_foldl_addB l₂ [] List.nodup_nil)).2
  intro b
  rw [mem_foldl_addB l₁ [] b, mem_foldl_addB l₂ [] b]
  simp [h.mem_iff]

/-- Entry lists of duplicate-free option lists have duplicate-free
    priorities. -/
theorem map_index_entries_nodup (acc : List BOpt) (h : acc.Nodup) :
    ((acc.map bEntry).map FuncHelpInfo.index).Nodup := by
  rw [List.map_map]
  rw [show (FuncHelpInfo.index ∘ bEntry) = bIndex from funext fun b => bEntry_index b]
  exact h.map fun x y hxy => bIndex_inj x y hxy

/-- Two permuted entry lists with duplicate-free priorities sort to the same
    list: the sorted order is unique when all priorities differ. -/
theorem sorted_entries_eq (e₁ e₂ : List FuncHelpInfo) (hperm : e₁.Perm e₂)
    (hn₁ : (e₁.map FuncHelpInfo.index).Nodup) (hn₂ : (e₂.map FuncHelpInfo.index).Nodup) :
    insSort (fun a b => decide (a.index < b.index)) e₁ =
      insSort (fun a b => decide (a.index < b.index)) e₂ := by
  have hp : (insSort (fun a b => decide (a.index < b.index)) e₁).Perm
      (insSort (fun a b => decide (a.index < b.index)) e₂) :=
    (insSort_perm _ e₁).trans (hperm.trans (insSort_perm _ e₂).symm)
  have hlt : ∀ e : List FuncHelpInfo, (e.map FuncHelpInfo.index).Nodup →
      (insSort (fun a b => decide (a.index < b.index)) e).Pairwise
        (fun a b => a.index < b.index) := by
    intro e hn
    have hs := insSort_pairwise (fun h : FuncHelpInfo => h.index) e
    have hnd : ((insSort (fun a b => decide (a.index < b.index)) e).map
        FuncHelpInfo.index).Nodup :=
      (((insSort_perm (fun a b => decide (a.index < b.index)) e).map
        FuncHelpInfo.index).nodup_iff).2 hn
    have hne : (insSort (fun a b => decide (a.index < b.index)) e).Pairwise
        (fun a b => a.index ≠ b.index) := List.pairwise_map.1 hnd
    exact (hs.and hne).imp fun hab => lt_of_le_of_ne hab.1 hab.2
  haveI : IsAntisymm FuncHelpInfo (fun a b => a.index < b.index) :=
    ⟨fun a b hab hba => absurd (lt_trans hab hba) (lt_irrefl _)⟩
  exact List.eq_of_perm_of_sorted hp (hlt e₁ hn₁) (hlt e₂ hn₂)

/-- The help list a registration list produces: fold, deduplicate, sort. -/
theorem NewConfig_funcHelp (l : List BOpt) :
    (NewConfig (l.map applyBOpt)).funcHelp =
      insSort (fun a b => decide (a.index < b.index)) ((dedupB l).map bEntry) := by
  unfold NewConfig
  rw [List.foldl_map]
  rw [show ({ funcMap := [], funcHelp := [] } : Config) = configOf [] from rfl]
  rw [foldl_applyBOpt l []]
  rfl

/-- The canonical-order property of C1, amended to the built-in options:
    however a multiset of individual built-in `Opt*` functions is ordered,
    `NewConfig` yields the same help text, because every built-in operation
    has its own priority constant and a sorted list with distinct priorities
    is unique. -/
theorem help_order_canonical (l₁ l₂ : List BOpt) (h : l₁.Perm l₂) :
    TemplateFunctionHelp (some (NewConfig (l₁.map applyBOpt))) =
      TemplateFunctionHelp (some (NewConfig (l₂.map applyBOpt))) := by
  simp only [TemplateFunctionHelp, getHelpers]
  rw [NewConfig_funcHelp l₁, NewConfig_funcHelp l₂]
  rw [sorted_entries_eq ((dedupB l₁).map bEntry) ((dedupB l₂).map bEntry)
    ((dedupB_perm l₁ l₂ h).map bEntry)
    (map_index_entries_nodup _ (nodup_foldl_addB l₁ [] List.nodup_nil))
    (map_index_entries_nodup _ (nodup_foldl_addB l₂ [] List.nodup_nil))]

/-- Witness for the canonical-order theorem on two orderings of `head` and
    `sort`. -/
theorem help_order_canonical_witness :
    ([BOpt.head, BOpt.sort] : List BOpt).Perm [BOpt.sort, BOpt.head] ∧
    TemplateFunctionHelp (some (NewConfig ([BOpt.head, BOpt.sort].map applyBOpt))) =
      TemplateFunctionHelp (some (NewConfig ([BOpt.sort, BOpt.head].map applyBOpt))) := by
  have hp : ([BOpt.head, BOpt.sort] : List BOpt).Perm [BOpt.sort, BOpt.head] :=
    List.Perm.swap _ _ _
  exact ⟨hp, help_order_canonical _ _ hp⟩

/-- The unrestricted C1 claim fails for custom functions: two custom
    functions share the priority `helpIndexCount`, so registering them in the
    two orders produces help texts that differ. -/
theorem help_order_custom_dependent :
    TemplateFunctionHelp (some (NewConfig [customOpt (Fn.custom 0) "aaa" "help a",
        customOpt (Fn.custom 1) "bbb" "help b"])) ≠
      TemplateFunctionHelp (some (NewConfig [customOpt (Fn.custom 1) "bbb" "help b",
        customOpt (Fn.custom 0) "aaa" "help a"])) := by
  decide

end Tfortools
